import Mathlib

/-!
Random-Object-Generator: a shallow embedding of `src/index.js`.

The generator is a small JavaScript module.  It is embedded here function by
function, with every effect of the program made explicit in a `World`:

* `Math.random()` and `crypto.getRandomValues` read from two streams of
  future outputs, so that "for every random source" is a quantification over
  worlds;
* configuration objects live in a heap and are passed by reference, exactly as
  JavaScript objects are, so that "does not mutate its argument" is a statement
  about heap cells;
* `Object.prototype`, the object that `initialObj.__proto__` denotes for every
  object literal, is one global store.

Loops that the source leaves unbounded (the resampling loop of
`_getUniqueKey`) and the recursion of the generator are driven by a `fuel`
argument; `none` means that the budget was not enough.

Idealisations: `Math.random()` yields an exact fraction in `[0, 1)` and
arithmetic on it is exact (no floating-point rounding); `maxBreadth` and
`maxHeight`, when they are numbers, are integers; a field that a caller's
configuration has holds a value of its documented type.
-/

namespace ObjectGenerator

/-! ## JavaScript values -/

/-- A JavaScript string, as its list of characters. -/
abbrev JSString := List Char

/-- The values the generator can produce.  `num n d` is the number `n / d`;
`date raw` is `new Date(raw)`; `regexp` and `error` are the two fixed complex
values; `func` is `function() {}`; an `object` is its list of own enumerable
properties in insertion order (JavaScript lists integer-like keys first; the
program never depends on the order). -/
inductive JSValue where
  | undefined
  | null
  | bool (b : Bool)
  | num (numer denom : Nat)
  | str (s : JSString)
  | func
  | date (raw : Nat)
  | regexp
  | error
  | array (elems : List JSValue)
  | object (own : List (JSString × JSValue))

instance : Inhabited JSValue := ⟨JSValue.undefined⟩

/-- Own enumerable properties of an object, in insertion order. -/
abbrev JSObject := List (JSString × JSValue)

/-- The call `Object.keys(obj)`. -/
def JSObject.keys (obj : JSObject) : List JSString :=
  obj.map Prod.fst

/-- The assignment `obj[key] = value`: overwrite the own property when it
exists, otherwise add it after the existing ones. -/
def JSObject.set : JSObject → JSString → JSValue → JSObject
  | [], key, value => [(key, value)]
  | (k, v) :: rest, key, value =>
    if k = key then (k, value) :: rest else (k, v) :: JSObject.set rest key value

mutual
/-- Every value of a tree, each with the number of edges (own properties and
array elements) between it and the root. -/
def JSValue.nodes : JSValue → List (Nat × JSValue)
  | .array elems => (0, .array elems) :: (nodesOfElems elems).map (fun p => (p.1 + 1, p.2))
  | .object own => (0, .object own) :: (nodesOfProps own).map (fun p => (p.1 + 1, p.2))
  | v => [(0, v)]
/-- The nodes of the elements of an array, at their depth below the element. -/
def nodesOfElems : List JSValue → List (Nat × JSValue)
  | [] => []
  | x :: xs => x.nodes ++ nodesOfElems xs
/-- The nodes of the property values of an object. -/
def nodesOfProps : List (JSString × JSValue) → List (Nat × JSValue)
  | [] => []
  | (_, x) :: xs => x.nodes ++ nodesOfProps xs
end

/-- Number of direct children of a composite value (own properties of an
object, elements of an array); `none` for a value that is not composite. -/
def JSValue.childCount : JSValue → Option Nat
  | .array elems => some elems.length
  | .object own => some own.length
  | _ => none

/-- The value is a mapping (an object). -/
def JSValue.isObject : JSValue → Bool
  | .object _ => true
  | _ => false

/-- The value is a string, a number, `undefined` or a boolean. -/
def JSValue.isSimple : JSValue → Bool
  | .str _ => true
  | .num _ _ => true
  | .undefined => true
  | .bool _ => true
  | _ => false

/-- The value is one of the three complex values: a date, the fixed regular
expression or the fixed error. -/
def JSValue.isComplex : JSValue → Bool
  | .date _ => true
  | .regexp => true
  | .error => true
  | _ => false

/-! ## Configuration objects -/

/-- A configuration object.  A field is `none` when reading it gives
`undefined` (the property is missing, or holds `undefined`); `maxWidth` records
whether the object has an own property of that name, which is all the source
ever asks about it. -/
structure Config where
  maxWidth : Bool := false
  maxBreadth : Option Int := none
  maxHeight : Option Int := none
  arrays : Option Bool := none
  functions : Option Bool := none
  complexTypes : Option Bool := none
  onPrototype : Option Bool := none
  deriving DecidableEq, Repr

/-- Truthiness of a boolean field: `undefined` is falsy. -/
def truthy : Option Bool → Bool
  | some b => b
  | none => false

/-- The comparison `x <= 0` on a field: `undefined <= 0` is `false`. -/
def leZero : Option Int → Bool
  | some x => decide (x ≤ 0)
  | none => false

/-- The comparison `(x - 1) <= 0` on a field: `undefined - 1` is `NaN`. -/
def predLeZero : Option Int → Bool
  | some x => decide (x - 1 ≤ 0)
  | none => false

/-! ## The random sources and the world -/

/-- One output of `Math.random()`: the fraction `num / den`, in `[0, 1)`. -/
structure Draw where
  num : Nat
  den : Nat
  lt : num < den

/-- The expression `Math.floor(r * n)` for an integer `n`. -/
def Draw.floorMul (r : Draw) (n : Int) : Int :=
  ((r.num : Int) * n) / (r.den : Int)

/-- Everything the program reads or writes besides its arguments. -/
structure World where
  /-- future outputs of `Math.random()` -/
  random : Nat → Draw
  /-- future words of `crypto.getRandomValues` -/
  crypto : Nat → Nat
  /-- own enumerable properties of the global `Object.prototype` -/
  objectPrototype : JSObject
  /-- configuration objects, by reference -/
  heap : Nat → Config
  /-- first reference not yet allocated -/
  next : Nat

/-- The call `Math.random()`. -/
def mathRandom (w : World) : Draw × World :=
  (w.random 0, { w with random := fun n => w.random (n + 1) })

/-- The call `crypto.getRandomValues(new Uint32Array(k))`: the next `k` words,
each stored as an unsigned 32-bit integer. -/
def getRandomValues (k : Nat) (w : World) : List Nat × World :=
  ((List.range k).map (fun i => w.crypto i % 2 ^ 32),
   { w with crypto := fun n => w.crypto (n + k) })

/-- Allocation of a fresh configuration object with the given contents. -/
def allocConfig (c : Config) (w : World) : Nat × World :=
  (w.next, { w with heap := Function.update w.heap w.next c, next := w.next + 1 })

/-! ## Strings and keys -/

/-- The digits of base 36. -/
def base36Alphabet : List Char :=
  ['0', '1', '2', '3', '4', '5', '6', '7', '8', '9',
   'a', 'b', 'c', 'd', 'e', 'f', 'g', 'h', 'i', 'j', 'k', 'l', 'm',
   'n', 'o', 'p', 'q', 'r', 's', 't', 'u', 'v', 'w', 'x', 'y', 'z']

/-- The digit of base 36 for `d < 36`. -/
def base36Digit (d : Nat) : Char :=
  base36Alphabet.getD d '0'

/-- Digits of `n` in base 36 pushed in front of `acc`, most significant first. -/
def toString36Core : Nat → Nat → List Char → List Char
  | 0, _, acc => acc
  | fuel + 1, n, acc =>
    if n / 36 = 0 then base36Digit (n % 36) :: acc
    else toString36Core fuel (n / 36) (base36Digit (n % 36) :: acc)

/-- The call `n.toString(36)` on a non-negative integer. -/
def toString36 (n : Nat) : JSString :=
  toString36Core (n + 1) n []

/-- The function `_getRandomString`: ten random words, each written in base 36,
joined, and cut to the first ten characters. -/
def _getRandomString (w : World) : JSString × World :=
  let (randSeq, w) := getRandomValues 10 w
  let outputStringBuffer := randSeq.map toString36
  (outputStringBuffer.flatten.take 10, w)

/-- The function `_getRandomBool`. -/
def _getRandomBool (w : World) : Bool × World :=
  let (r, w) := mathRandom w
  (decide (r.floorMul 2 ≠ 0), w)

/-- The loop `while (exclusions.indexOf(key) > -1) key = _getRandomString()`. -/
def uniqueKeyLoop : Nat → List JSString → JSString → World → Option (JSString × World)
  | fuel, exclusions, key, w =>
    if key ∈ exclusions then
      match fuel with
      | 0 => none
      | fuel + 1 =>
        let (key, w) := _getRandomString w
        uniqueKeyLoop fuel exclusions key w
    else some (key, w)

/-- The function `_getUniqueKey`. -/
def _getUniqueKey (fuel : Nat) (exclusions : List JSString) (w : World) :
    Option (JSString × World) :=
  let (key, w) := _getRandomString w
  uniqueKeyLoop fuel exclusions key w

/-! ## Leaf values -/

/-- The function `_getSimpleValue`; falling off the end of the function gives
`undefined`. -/
def _getSimpleValue (w : World) : JSValue × World :=
  let (r, w) := mathRandom w
  let randomSimple := r.floorMul 4
  if randomSimple = 0 then
    let (s, w) := _getRandomString w
    (.str s, w)
  else if randomSimple = 1 then
    let (r, w) := mathRandom w
    (.num (r.num * 10) r.den, w)
  else if randomSimple = 2 then (.undefined, w)
  else if randomSimple = 3 then
    let (b, w) := _getRandomBool w
    (.bool b, w)
  else (.undefined, w)

/-- The function `_getComplexValue`. -/
def _getComplexValue (w : World) : JSValue × World :=
  let (r, w) := mathRandom w
  let valueType := r.floorMul 3
  if valueType = 0 then
    let (seq, w) := getRandomValues 1 w
    (.date (seq.getD 0 0), w)
  else if valueType = 1 then (.regexp, w)
  else (.error, w)

/-! ## Kinds -/

/-- The type tags of `_getRandomType`. -/
inductive Kind where
  | simple
  | object
  | function
  | array
  | complex
  deriving DecidableEq, Repr

/-- The list `types` of `_getRandomType` after the three conditional pushes. -/
def enabledTypes (c : Config) : List Kind :=
  [Kind.simple, Kind.object]
    ++ (if truthy c.functions then [Kind.function] else [])
    ++ (if truthy c.arrays then [Kind.array] else [])
    ++ (if truthy c.complexTypes then [Kind.complex] else [])

/-- The indexing `xs[i]`: `undefined` (here `none`) outside the list. -/
def jsIndex {α : Type} (xs : List α) (i : Int) : Option α :=
  if i < 0 then none else xs.get? i.toNat

/-- The function `_getRandomType`. -/
def _getRandomType (config : Nat) (w : World) : Option Kind × World :=
  let types := enabledTypes (w.heap config)
  let (r, w) := mathRandom w
  (jsIndex types (r.floorMul types.length), w)

/-! ## The recursive generator -/

/-- The contents of the object built by `_configReducedHeight` from an object
with contents `c`: every own property of `c` is copied, then `maxHeight` is
decremented when it is a number (`typeof newConfig.maxHeight === 'number'`)
and set to `0` otherwise. -/
def reducedHeight (c : Config) : Config :=
  { c with
    maxHeight :=
      match c.maxHeight with
      | some h => some (h - 1)
      | none => some 0 }

/-- The function `_configReducedHeight`: the copy is a newly allocated object;
`config` itself is only read. -/
def _configReducedHeight (config : Nat) (w : World) : Nat × World :=
  allocConfig (reducedHeight (w.heap config)) w

/-- The value `Math.floor(Math.random() * (config.maxBreadth + 1))`; `none` is
`NaN`, the result when `maxBreadth` is `undefined`. -/
def numChildrenOf (maxBreadth : Option Int) (r : Draw) : Option Int :=
  maxBreadth.map (fun b => r.floorMul (b + 1))

/-- Number of iterations of `for (var i = 0; i < numChildren; i++)`. -/
def loopCount : Option Int → Nat
  | some n => n.toNat
  | none => 0

/-- One iteration of the loop of `_getRandomObject`, after the child value has
been produced: the choice of the store and the assignment under a unique key.
`_getRandomBool` is only called when `config.onPrototype` is truthy.  Every
`initialObj` is an object literal, so `initialObj.__proto__` is the global
`Object.prototype` and `initialObj.__proto__ || {}` never takes the right
branch. -/
def attachChild (fuel : Nat) (config : Nat) (value : JSValue) (initialObj : JSObject)
    (w : World) : Option (JSObject × World) :=
  let (onProto, w) :=
    if truthy (w.heap config).onPrototype then _getRandomBool w else (false, w)
  if onProto then
    match _getUniqueKey fuel w.objectPrototype.keys w with
    | none => none
    | some (key, w) =>
      some (initialObj, { w with objectPrototype := w.objectPrototype.set key value })
  else
    match _getUniqueKey fuel initialObj.keys w with
    | none => none
    | some (key, w) => some (initialObj.set key value, w)

/-- The loop of `_getRandomObject`, for the given number of iterations;
`getRandomValue` is the function `_getRandomValue`. -/
def objectLoop (getRandomValue : Nat → World → Option (JSValue × World)) (fuel : Nat)
    (config : Nat) : Nat → JSObject → World → Option (JSObject × World)
  | 0, initialObj, w => some (initialObj, w)
  | n + 1, initialObj, w =>
    match getRandomValue config w with
    | none => none
    | some (value, w) =>
      match attachChild fuel config value initialObj w with
      | none => none
      | some (initialObj, w) => objectLoop getRandomValue fuel config n initialObj w

/-- The body of `_getRandomObject`, with `_getRandomValue` as a parameter. -/
def _getRandomObjectWith (getRandomValue : Nat → World → Option (JSValue × World))
    (fuel : Nat) (initialObj : JSObject) (config : Nat) (w : World) :
    Option (JSValue × World) :=
  if leZero (w.heap config).maxHeight then some (.null, w)
  else
    let (r, w) := mathRandom w
    let numChildren := numChildrenOf (w.heap config).maxBreadth r
    match objectLoop getRandomValue fuel config (loopCount numChildren) initialObj w with
    | none => none
    | some (obj, w) => some (.object obj, w)

/-- The loop of `_getRandomArray`: each element is produced from its own
height-reduced copy of `config`. -/
def arrayLoop (getRandomValue : Nat → World → Option (JSValue × World)) (config : Nat) :
    Nat → List JSValue → World → Option (List JSValue × World)
  | 0, arr, w => some (arr, w)
  | n + 1, arr, w =>
    let (newConfig, w) := _configReducedHeight config w
    match getRandomValue newConfig w with
    | none => none
    | some (value, w) => arrayLoop getRandomValue config n (arr ++ [value]) w

/-- The body of `_getRandomArray`, with `_getRandomValue` as a parameter. -/
def _getRandomArrayWith (getRandomValue : Nat → World → Option (JSValue × World))
    (config : Nat) (w : World) : Option (JSValue × World) :=
  let (r, w) := mathRandom w
  let numChildren := numChildrenOf (w.heap config).maxBreadth r
  if predLeZero (w.heap config).maxHeight then some (.array [], w)
  else
    match arrayLoop getRandomValue config (loopCount numChildren) [] w with
    | none => none
    | some (arr, w) => some (.array arr, w)

/-- The function `_getRandomValue`.  One unit of fuel is spent per call; the
type is drawn before the height is tested, as in the source, and the `default`
case of the `switch` is the `object` case. -/
def _getRandomValue : Nat → Nat → World → Option (JSValue × World)
  | 0, _, _ => none
  | fuel + 1, config, w =>
    let (type, w) := _getRandomType config w
    if leZero (w.heap config).maxHeight then some (.undefined, w)
    else
      match type with
      | some Kind.simple => some (_getSimpleValue w)
      | some Kind.array => _getRandomArrayWith (_getRandomValue fuel) config w
      | some Kind.complex => some (_getComplexValue w)
      | some Kind.function => some (.func, w)
      | _ =>
        let (newConfig, w) := _configReducedHeight config w
        _getRandomObjectWith (_getRandomValue fuel) fuel [] newConfig w

/-- The function `_getRandomObject`. -/
def _getRandomObject (fuel : Nat) (initialObj : JSObject) (config : Nat) (w : World) :
    Option (JSValue × World) :=
  _getRandomObjectWith (_getRandomValue fuel) fuel initialObj config w

/-- The function `_getRandomArray`. -/
def _getRandomArray (fuel : Nat) (config : Nat) (w : World) : Option (JSValue × World) :=
  _getRandomArrayWith (_getRandomValue fuel) config w

/-- The contents of `currConfig` in `getRandomObjectWrapper`, from the contents
`c` of the caller's object.  The test `hasOwnProperty` of a field of the
caller's object is `isSome`; the first assignment tests `maxWidth` and reads
`maxBreadth`. -/
def resolveConfig (c : Config) : Config :=
  { maxBreadth := if c.maxWidth then c.maxBreadth else some 5
    maxHeight := if c.maxHeight.isSome then c.maxHeight else some 5
    arrays := if c.arrays.isSome then c.arrays else some false
    complexTypes := if c.complexTypes.isSome then c.complexTypes else some false
    onPrototype := if c.onPrototype.isSome then c.onPrototype else some false
    functions := if c.functions.isSome then c.functions else some false }

/-- The function `getRandomObjectWrapper`, exported as `getRandom`.  The
argument is `none` when the caller passes no configuration; `config || {}`
then allocates an empty object.  `currConfig` is a newly allocated object. -/
def getRandomObjectWrapper (fuel : Nat) (config : Option Nat) (w : World) :
    Option (JSValue × World) :=
  let (config, w) :=
    match config with
    | some ref => (ref, w)
    | none => allocConfig {} w
  let (currConfig, w) := allocConfig (resolveConfig (w.heap config)) w
  _getRandomObject fuel [] currConfig w

/-! ## Sample worlds -/

/-- The draw `1/2`. -/
def Draw.half : Draw := ⟨1, 2, by decide⟩

/-- The draw `1/4`. -/
def Draw.quarter : Draw := ⟨1, 4, by decide⟩

/-- A world whose `Math.random()` always returns `r`, whose random words count
up from `0`, with an empty `Object.prototype` and one configuration object, at
reference `0`, with contents `c`. -/
def sampleWorld (r : Draw) (c : Config) : World where
  random := fun _ => r
  crypto := fun i => i
  objectPrototype := []
  heap := fun _ => c
  next := 1

/-- The first key drawn in a sample world: the words `0, 1, ..., 9` in base 36. -/
def sampleKey : JSString := ['0', '1', '2', '3', '4', '5', '6', '7', '8', '9']

/-- The second key drawn in a sample world: the words `10, 11, ..., 19`. -/
def sampleKey₂ : JSString := ['a', 'b', 'c', 'd', 'e', 'f', 'g', 'h', 'i', 'j']

/-- A resolved configuration with every toggle off, one level and at most one
child per node. -/
def leafConfig : Config :=
  { maxBreadth := some 1, maxHeight := some 1, arrays := some false, functions := some false,
    complexTypes := some false, onPrototype := some false }

/-- The tree `_getRandomObject` builds from `leafConfig` when every draw is
`1/2`: one child (`floor(1/2 * 2) = 1`), of kind `object` (index
`floor(1/2 * 2) = 1` of `['simple', 'object']`), built with height `0` and so
`null`, under the first key. -/
def leafTree : JSValue := JSValue.object [(sampleKey, JSValue.null)]

/-- The world after that run: two draws and ten words consumed, and the
height-reduced copy of the configuration allocated at reference `1`. -/
def leafWorldAfter : World where
  random := fun _ => Draw.half
  crypto := fun i => i + 10
  objectPrototype := []
  heap := Function.update (fun _ => leafConfig) 1 (reducedHeight leafConfig)
  next := 2

/-- The configuration `leafConfig` with `onPrototype` switched on. -/
def protoConfig : Config :=
  { leafConfig with onPrototype := some true }

/-- The world after `_getRandomObject` has run on `protoConfig` with every draw
`1/2`: the one child, `null`, went to `Object.prototype` (`_getRandomBool`
gives `floor(1/2 * 2) = 1`, that is `true`), under the first key. -/
def protoWorldAfter : World where
  random := fun _ => Draw.half
  crypto := fun i => i + 10
  objectPrototype := [(sampleKey, JSValue.null)]
  heap := Function.update (fun _ => protoConfig) 1 (reducedHeight protoConfig)
  next := 2

/-- A caller configuration that asks for no children at all, one level deep. -/
def noBreadthConfig : Config :=
  { maxBreadth := some 0, maxHeight := some 1 }

/-- A caller configuration that `resolveConfig` turns into `leafConfig`: it
carries a `maxWidth` property, so its `maxBreadth` is read. -/
def callerConfig : Config :=
  { leafConfig with maxWidth := true }

/-- The world after `getRandomObjectWrapper` has run on `callerConfig` with
every draw `1/2`: `currConfig` is at reference `1`, its height-reduced copy at
reference `2`, and the caller's object still at reference `0`. -/
def callerWorldAfter : World where
  random := fun _ => Draw.half
  crypto := fun i => i + 10
  objectPrototype := []
  heap := Function.update (Function.update (fun _ => callerConfig) 1 leafConfig) 2
    (reducedHeight leafConfig)
  next := 3

/-- A caller configuration that `resolveConfig` turns into `protoConfig`. -/
def protoCallerConfig : Config :=
  { protoConfig with maxWidth := true }

/-- The world after `getRandomObjectWrapper` has run on `protoCallerConfig`
with every draw `1/2`, from an empty `Object.prototype`: the one child is in
`Object.prototype`. -/
def protoCallerWorldAfter : World where
  random := fun _ => Draw.half
  crypto := fun i => i + 10
  objectPrototype := [(sampleKey, JSValue.null)]
  heap := Function.update (Function.update (fun _ => protoCallerConfig) 1 protoConfig) 2
    (reducedHeight protoConfig)
  next := 3

/-- The world after a second run of `getRandomObjectWrapper` on the same
caller configuration, started in `protoCallerWorldAfter`: the second child is
in `Object.prototype` next to the first. -/
def protoCallerWorldAfterTwo : World where
  random := fun _ => Draw.half
  crypto := fun i => i + 10 + 10
  objectPrototype := [(sampleKey, JSValue.null), (sampleKey₂, JSValue.null)]
  heap := Function.update (Function.update protoCallerWorldAfter.heap 3 protoConfig) 4
    (reducedHeight protoConfig)
  next := 5

/-- The most iterations a child-count loop can make for a given `maxBreadth`. -/
def breadthCap : Option Int → Nat
  | some b => b.toNat
  | none => 0

/-- The world `w'` is `w` after some steps of the program: configuration
objects that existed in `w` are unchanged in `w'`, and the global store only
gained properties under new keys. -/
structure World.Extends (w w' : World) : Prop where
  next_le : w.next ≤ w'.next
  heap_eq : ∀ a, a < w.next → w'.heap a = w.heap a
  store : ∃ added : JSObject, w'.objectPrototype = w.objectPrototype ++ added ∧
    added.keys.Nodup ∧ ∀ k ∈ added.keys, k ∉ w.objectPrototype.keys

/-- The step from `w` to `w'` only consumed random draws. -/
def World.SameStore (w w' : World) : Prop :=
  w'.heap = w.heap ∧ w'.next = w.next ∧ w'.objectPrototype = w.objectPrototype

/-- Closure conditions on a property `PV` of the values `_getRandomValue`
returns and a property `PO` of the values `_getRandomObject` returns, both
relative to the contents of the configuration object the call receives: one
condition per way in which the source builds a value. -/
structure GenClosed (PV PO : Config → JSValue → Prop) : Prop where
  exhausted : ∀ c, leZero c.maxHeight = true → PV c .undefined
  simple : ∀ c v, leZero c.maxHeight = false → v.isSimple = true → PV c v
  complex : ∀ c v, leZero c.maxHeight = false → truthy c.complexTypes = true →
    v.isComplex = true → PV c v
  func : ∀ c, leZero c.maxHeight = false → truthy c.functions = true → PV c .func
  array : ∀ c (elems : List JSValue), leZero c.maxHeight = false → truthy c.arrays = true →
    elems.length ≤ breadthCap c.maxBreadth →
    (elems ≠ [] → predLeZero c.maxHeight = false) →
    (∀ x ∈ elems, PV (reducedHeight c) x) → PV c (.array elems)
  objectValue : ∀ c v, leZero c.maxHeight = false → PO (reducedHeight c) v → PV c v
  null : ∀ c, leZero c.maxHeight = true → PO c .null
  object : ∀ c (own : JSObject), leZero c.maxHeight = false →
    own.length ≤ breadthCap c.maxBreadth → own.keys.Nodup →
    (∀ p ∈ own, PV c p.2) → PO c (.object own)

/-- A caller configuration with a negative `maxHeight`. -/
def negativeHeightConfig : Config :=
  { maxHeight := some (-1) }

/-- A caller configuration with a negative `maxBreadth` that is read (the
object has a `maxWidth` property), one level deep. -/
def negativeBreadthConfig : Config :=
  { maxWidth := true, maxBreadth := some (-3), maxHeight := some 1 }

/-- A caller configuration that supplies `maxBreadth = 3` next to a `maxWidth`
property, with `maxHeight = 0` so that the run stops at once. -/
def widthAndBreadthConfig : Config :=
  { maxWidth := true, maxBreadth := some 3, maxHeight := some 0 }

/-- A resolved configuration with arrays on, two levels and at most one child
per node. -/
def arrayConfig : Config :=
  { maxBreadth := some 1, maxHeight := some 2, arrays := some true, functions := some false,
    complexTypes := some false, onPrototype := some false }

/-- The world after `_getRandomArray` has run on `arrayConfig` with every draw
`1/2`: one element (`floor(1/2 * 2) = 1`), produced from the copy of height
`1` at reference `1`; its kind is `object` (index `floor(1/2 * 3) = 1` of
`['simple', 'object', 'array']`), built from the copy of height `0` at
reference `2`, hence `null`. -/
def arrayWorldAfter : World where
  random := fun _ => Draw.half
  crypto := fun i => i
  objectPrototype := []
  heap := Function.update (Function.update (fun _ => arrayConfig) 1 (reducedHeight arrayConfig))
    2 (reducedHeight (reducedHeight arrayConfig))
  next := 3

/-- The configuration `protoConfig` with two levels instead of one. -/
def nestedProtoConfig : Config :=
  { protoConfig with maxHeight := some 2 }

/-- A caller configuration that `resolveConfig` turns into `nestedProtoConfig`:
`{maxWidth: 1, maxBreadth: 1, maxHeight: 2, onPrototype: true}`. -/
def nestedProtoCallerConfig : Config :=
  { maxWidth := true, maxBreadth := some 1, maxHeight := some 2, onPrototype := some true }

/-- The world in which `getRandomObjectWrapper`, called on
`nestedProtoCallerConfig`, calls `_getRandomObject`: `currConfig` is at
reference `1`. -/
def nestedProtoWorldStart : World where
  random := fun _ => Draw.half
  crypto := fun i => i
  objectPrototype := []
  heap := Function.update (fun _ => nestedProtoCallerConfig) 1 nestedProtoConfig
  next := 2

/-- The world of that run when the nested mapping starts: the copy of height
`1` is at reference `2`. -/
def nestedProtoWorldInner : World where
  random := fun _ => Draw.half
  crypto := fun i => i
  objectPrototype := []
  heap := Function.update
    (Function.update (fun _ => nestedProtoCallerConfig) 1 nestedProtoConfig)
    2 (reducedHeight nestedProtoConfig)
  next := 3

/-- The world of that run after the root's child, an empty mapping, has been
produced: the child of that mapping is in `Object.prototype`. -/
def nestedProtoWorldChild : World where
  random := fun _ => Draw.half
  crypto := fun i => i + 10
  objectPrototype := [(sampleKey, JSValue.null)]
  heap := Function.update
    (Function.update
      (Function.update (fun _ => nestedProtoCallerConfig) 1 nestedProtoConfig)
      2 (reducedHeight nestedProtoConfig))
    3 (reducedHeight (reducedHeight nestedProtoConfig))
  next := 4

/-- The world after `getRandomObjectWrapper` has run on
`nestedProtoCallerConfig` with every draw `1/2`: the root draws one child
(`floor(1/2 * 2) = 1`), a mapping built from the copy of height `1` at
reference `2`; that mapping draws one child, `null`, which goes to
`Object.prototype` under the first key; then the root puts the mapping, which
is empty, to `Object.prototype` under the second key. -/
def nestedProtoWorldAfter : World where
  random := fun _ => Draw.half
  crypto := fun i => i + 10 + 10
  objectPrototype := [(sampleKey, JSValue.null), (sampleKey₂, JSValue.object [])]
  heap := Function.update
    (Function.update
      (Function.update (fun _ => nestedProtoCallerConfig) 1 nestedProtoConfig)
      2 (reducedHeight nestedProtoConfig))
    3 (reducedHeight (reducedHeight nestedProtoConfig))
  next := 4

/-! ## Key draws that never collide -/

/-- The string `_getRandomString` returns when the next word of the random
source is word `p` of `crypto`. -/
def keyAt (crypto : Nat → Nat) (p : Nat) : JSString :=
  (List.flatten (List.map toString36
    ((List.range 10).map (fun i => crypto (p + i) % 2 ^ 32)))).take 10

/-- Within the next `N` words of the random source no key drawn can collide:
the strings that start at two different words among them differ, and none of
them is in `used` or a key of `Object.prototype`. -/
def Fresh (N : Nat) (w : World) (used : List JSString) : Prop :=
  (∀ j, j < N → ∀ i, i < j → keyAt w.crypto i ≠ keyAt w.crypto j) ∧
  (∀ i, i < N → keyAt w.crypto i ∉ used ∧ keyAt w.crypto i ∉ w.objectPrototype.keys)

instance (N : Nat) (w : World) (used : List JSString) : Decidable (Fresh N w used) := by
  unfold Fresh
  infer_instance

/-- A bound on the random words one call of `_getRandomValue` consumes, for a
configuration of height `k` and at most `B` children per node: ten for a
string, and per child of a nested node the cost of the child and ten for its
key. -/
def valueCost (B : Nat) : Nat → Nat
  | 0 => 0
  | k + 1 => 10 + B * (valueCost B k + 10)

/-- A bound on the random words one call of `_getRandomObject` consumes. -/
def objectCost (B k : Nat) : Nat :=
  B * (valueCost B k + 10)

/-- The step from `w` to `w'` consumed no random word and left the global
store as it was. -/
def World.SameKeys (w w' : World) : Prop :=
  w'.crypto = w.crypto ∧ w'.objectPrototype = w.objectPrototype

/-! ## Arithmetic of draws -/

theorem Draw.den_pos (r : Draw) : 0 < r.den :=
  Nat.lt_of_le_of_lt (Nat.zero_le _) r.lt

theorem Draw.floorMul_nonneg (r : Draw) {n : Int} (hn : 0 ≤ n) : 0 ≤ r.floorMul n := by
  unfold Draw.floorMul
  exact Int.ediv_nonneg (mul_nonneg (Int.ofNat_nonneg _) hn) (Int.ofNat_nonneg _)

theorem Draw.floorMul_lt (r : Draw) {n : Int} (hn : 0 < n) : r.floorMul n < n := by
  unfold Draw.floorMul
  have hd : (0 : Int) < (r.den : Int) := by exact_mod_cast r.den_pos
  have hlt : (r.num : Int) < (r.den : Int) := by exact_mod_cast r.lt
  apply Int.ediv_lt_of_lt_mul hd
  rw [mul_comm]
  exact mul_lt_mul_of_pos_left hlt hn

theorem Draw.floorMul_nonpos (r : Draw) {n : Int} (hn : n ≤ 0) : r.floorMul n ≤ 0 := by
  unfold Draw.floorMul
  have hd : (0 : Int) < (r.den : Int) := by exact_mod_cast r.den_pos
  have h1 : (r.num : Int) * n ≤ 0 := mul_nonpos_of_nonneg_of_nonpos (Int.ofNat_nonneg _) hn
  have h2 : (r.num : Int) * n < 1 * (r.den : Int) := by omega
  have := Int.ediv_lt_of_lt_mul hd h2
  omega

theorem loopCount_le_breadthCap (maxBreadth : Option Int) (r : Draw) :
    loopCount (numChildrenOf maxBreadth r) ≤ breadthCap maxBreadth := by
  cases maxBreadth with
  | none => simp [numChildrenOf, loopCount, breadthCap]
  | some b =>
    simp only [numChildrenOf, Option.map_some', loopCount, breadthCap]
    rcases lt_or_le b 0 with hb | hb
    · have := r.floorMul_nonpos (show b + 1 ≤ 0 by omega)
      omega
    · have := r.floorMul_lt (show 0 < b + 1 by omega)
      omega

/-! ## Objects -/

theorem JSObject.set_of_not_mem (obj : JSObject) (key : JSString) (value : JSValue)
    (h : key ∉ obj.keys) : obj.set key value = obj ++ [(key, value)] := by
  induction obj with
  | nil => rfl
  | cons p rest ih =>
    obtain ⟨k, v⟩ := p
    simp only [JSObject.keys, List.map_cons, List.mem_cons, not_or] at h
    have hk : ¬ k = key := fun e => h.1 e.symm
    simp only [JSObject.set, hk, if_false, List.cons_append]
    rw [ih h.2]

theorem JSObject.keys_append (obj : JSObject) (key : JSString) (value : JSValue) :
    JSObject.keys (obj ++ [(key, value)]) = obj.keys ++ [key] := by
  simp [JSObject.keys]

theorem JSObject.nodup_keys_append (obj : JSObject) (key : JSString) (value : JSValue)
    (hobj : obj.keys.Nodup) (h : key ∉ obj.keys) :
    (JSObject.keys (obj ++ [(key, value)])).Nodup := by
  rw [JSObject.keys_append]
  exact List.Nodup.append hobj (List.nodup_singleton key) (by simpa using h)

/-! ## The frame of each step -/

theorem World.SameStore.same_refl (w : World) : w.SameStore w :=
  ⟨rfl, rfl, rfl⟩

theorem World.SameStore.same_trans {w₁ w₂ w₃ : World} (h₁ : w₁.SameStore w₂)
    (h₂ : w₂.SameStore w₃) : w₁.SameStore w₃ :=
  ⟨h₂.1.trans h₁.1, h₂.2.1.trans h₁.2.1, h₂.2.2.trans h₁.2.2⟩

theorem World.Extends.ext_refl (w : World) : w.Extends w :=
  ⟨le_refl _, fun _ _ => rfl, ⟨[], by simp [JSObject.keys]⟩⟩

theorem World.Extends.ext_trans {w₁ w₂ w₃ : World} (h₁ : w₁.Extends w₂)
    (h₂ : w₂.Extends w₃) : w₁.Extends w₃ := by
  refine ⟨le_trans h₁.next_le h₂.next_le, fun a ha => ?_, ?_⟩
  · rw [h₂.heap_eq a (lt_of_lt_of_le ha h₁.next_le), h₁.heap_eq a ha]
  · obtain ⟨a₁, e₁, n₁, d₁⟩ := h₁.store
    obtain ⟨a₂, e₂, n₂, d₂⟩ := h₂.store
    rw [e₁] at d₂ e₂
    simp only [JSObject.keys, List.map_append, List.mem_append, not_or] at d₁ d₂ n₁ n₂ ⊢
    refine ⟨a₁ ++ a₂, by rw [e₂, List.append_assoc], ?_, ?_⟩
    · rw [List.map_append]
      refine List.Nodup.append n₁ n₂ ?_
      intro k hk₁ hk₂
      exact (d₂ k hk₂).2 hk₁
    · intro k hk
      rw [List.map_append, List.mem_append] at hk
      rcases hk with hk | hk
      · exact d₁ k hk
      · exact (d₂ k hk).1

theorem World.Extends.nodup {w w' : World} (h : w.Extends w')
    (hw : w.objectPrototype.keys.Nodup) : w'.objectPrototype.keys.Nodup := by
  obtain ⟨a, e, n, d⟩ := h.store
  rw [e]
  simp only [JSObject.keys, List.map_append] at n d ⊢
  refine List.Nodup.append hw n ?_
  intro k hk₁ hk₂
  exact d k hk₂ hk₁

theorem World.SameStore.extends {w w' : World} (h : w.SameStore w') : w.Extends w' := by
  obtain ⟨hh, hn, hp⟩ := h
  exact ⟨by rw [hn], fun a _ => by rw [hh], ⟨[], by simp [hp, JSObject.keys]⟩⟩

theorem mathRandom_sameStore (w : World) : w.SameStore (mathRandom w).2 :=
  ⟨rfl, rfl, rfl⟩

theorem getRandomValues_sameStore (k : Nat) (w : World) :
    w.SameStore (getRandomValues k w).2 :=
  ⟨rfl, rfl, rfl⟩

theorem getRandomString_sameStore (w : World) : w.SameStore (_getRandomString w).2 :=
  ⟨rfl, rfl, rfl⟩

theorem getRandomBool_sameStore (w : World) : w.SameStore (_getRandomBool w).2 :=
  ⟨rfl, rfl, rfl⟩

theorem getSimpleValue_sameStore (w : World) : w.SameStore (_getSimpleValue w).2 := by
  unfold _getSimpleValue
  simp only
  split_ifs <;> exact ⟨rfl, rfl, rfl⟩

theorem getComplexValue_sameStore (w : World) : w.SameStore (_getComplexValue w).2 := by
  unfold _getComplexValue
  simp only
  split_ifs <;> exact ⟨rfl, rfl, rfl⟩

theorem getRandomType_sameStore (config : Nat) (w : World) :
    w.SameStore (_getRandomType config w).2 :=
  ⟨rfl, rfl, rfl⟩

theorem uniqueKeyLoop_spec (fuel : Nat) (exclusions : List JSString) :
    ∀ (key : JSString) (w : World) (key' : JSString) (w' : World),
      uniqueKeyLoop fuel exclusions key w = some (key', w') →
      key' ∉ exclusions ∧ w.SameStore w' := by
  induction fuel with
  | zero =>
    intro key w key' w' h
    unfold uniqueKeyLoop at h
    split_ifs at h with hk
    simp only [Option.some.injEq, Prod.mk.injEq] at h
    obtain ⟨rfl, rfl⟩ := h
    exact ⟨hk, World.SameStore.same_refl _⟩
  | succ fuel ih =>
    intro key w key' w' h
    unfold uniqueKeyLoop at h
    split_ifs at h with hk
    · obtain ⟨hn, hs⟩ := ih _ _ _ _ h
      exact ⟨hn, (getRandomString_sameStore w).same_trans hs⟩
    · simp only [Option.some.injEq, Prod.mk.injEq] at h
      obtain ⟨rfl, rfl⟩ := h
      exact ⟨hk, World.SameStore.same_refl _⟩

theorem getUniqueKey_spec (fuel : Nat) (exclusions : List JSString) (w : World)
    (key : JSString) (w' : World) (h : _getUniqueKey fuel exclusions w = some (key, w')) :
    key ∉ exclusions ∧ w.SameStore w' := by
  unfold _getUniqueKey at h
  obtain ⟨hn, hs⟩ := uniqueKeyLoop_spec fuel exclusions _ _ _ _ h
  exact ⟨hn, (getRandomString_sameStore w).same_trans hs⟩

theorem allocConfig_extends (c : Config) (w : World) : w.Extends (allocConfig c w).2 := by
  refine ⟨Nat.le_succ _, fun a ha => ?_, ⟨[], by simp [allocConfig, JSObject.keys]⟩⟩
  simp only [allocConfig]
  exact Function.update_noteq (Nat.ne_of_lt ha) _ _

theorem allocConfig_heap (c : Config) (w : World) :
    (allocConfig c w).2.heap (allocConfig c w).1 = c := by
  simp [allocConfig]

theorem configReducedHeight_extends (config : Nat) (w : World) :
    w.Extends (_configReducedHeight config w).2 :=
  allocConfig_extends _ w

theorem configReducedHeight_heap (config : Nat) (w : World) :
    (_configReducedHeight config w).2.heap (_configReducedHeight config w).1
      = reducedHeight (w.heap config) :=
  allocConfig_heap _ w

/-- What one attachment does: the child goes under a new key either to the
global store or to the node itself, and nothing else changes. -/
theorem attachChild_spec (fuel config : Nat) (value : JSValue) (obj : JSObject) (w : World)
    (obj' : JSObject) (w' : World)
    (h : attachChild fuel config value obj w = some (obj', w')) :
    w'.heap = w.heap ∧ w'.next = w.next ∧
    ((truthy (w.heap config).onPrototype = true ∧ obj' = obj ∧
        ∃ key, key ∉ w.objectPrototype.keys ∧
          w'.objectPrototype = w.objectPrototype ++ [(key, value)]) ∨
     (w'.objectPrototype = w.objectPrototype ∧
        ∃ key, key ∉ obj.keys ∧ obj' = obj ++ [(key, value)])) := by
  unfold attachChild at h
  by_cases hp : truthy (w.heap config).onPrototype = true
  · simp only [hp, if_true] at h
    by_cases hb : (_getRandomBool w).1 = true
    · simp only [hb, if_true] at h
      cases hk : _getUniqueKey fuel (_getRandomBool w).2.objectPrototype.keys (_getRandomBool w).2 with
      | none => simp [hk] at h
      | some r =>
        obtain ⟨key, w₁⟩ := r
        simp only [hk, Option.some.injEq, Prod.mk.injEq] at h
        obtain ⟨rfl, rfl⟩ := h
        obtain ⟨hn, hs⟩ := getUniqueKey_spec _ _ _ _ _ hk
        have hs' := (getRandomBool_sameStore w).same_trans hs
        obtain ⟨hh, hnx, hpr⟩ := hs'
        refine ⟨hh, hnx, Or.inl ⟨hp, rfl, key, ?_, ?_⟩⟩
        · exact hn
        · have hn' : key ∉ w₁.objectPrototype.keys := by rw [hpr]; exact hn
          show w₁.objectPrototype.set key value = _
          rw [JSObject.set_of_not_mem _ _ _ hn', hpr]
    · simp only [hb] at h
      cases hk : _getUniqueKey fuel obj.keys (_getRandomBool w).2 with
      | none => simp [hk] at h
      | some r =>
        obtain ⟨key, w₁⟩ := r
        simp only [hk, Option.some.injEq, Prod.mk.injEq] at h
        obtain ⟨rfl, rfl⟩ := h
        obtain ⟨hn, hs⟩ := getUniqueKey_spec _ _ _ _ _ hk
        obtain ⟨hh, hnx, hpr⟩ := (getRandomBool_sameStore w).same_trans hs
        exact ⟨hh, hnx, Or.inr ⟨hpr, key, hn, JSObject.set_of_not_mem _ _ _ hn⟩⟩
  · simp only [hp, Bool.false_eq_true, if_false] at h
    cases hk : _getUniqueKey fuel obj.keys w with
    | none => simp [hk] at h
    | some r =>
      obtain ⟨key, w₁⟩ := r
      simp only [hk, Option.some.injEq, Prod.mk.injEq] at h
      obtain ⟨rfl, rfl⟩ := h
      obtain ⟨hn, hh, hnx, hpr⟩ := getUniqueKey_spec _ _ _ _ _ hk
      exact ⟨hh, hnx, Or.inr ⟨hpr, key, hn, JSObject.set_of_not_mem _ _ _ hn⟩⟩

theorem attachChild_extends (fuel config : Nat) (value : JSValue) (obj : JSObject) (w : World)
    (obj' : JSObject) (w' : World)
    (h : attachChild fuel config value obj w = some (obj', w')) : w.Extends w' := by
  obtain ⟨hh, hn, hs⟩ := attachChild_spec _ _ _ _ _ _ _ h
  refine ⟨by rw [hn], fun a _ => by rw [hh], ?_⟩
  rcases hs with ⟨_, _, key, hk, e⟩ | ⟨e, _⟩
  · exact ⟨[(key, value)], e, by simp [JSObject.keys], by simpa [JSObject.keys] using hk⟩
  · exact ⟨[], by simp [e, JSObject.keys]⟩

/-! ## Leaf values and kinds -/

theorem getSimpleValue_isSimple (w : World) : (_getSimpleValue w).1.isSimple = true := by
  unfold _getSimpleValue
  simp only
  split_ifs <;> rfl

theorem getComplexValue_isComplex (w : World) : (_getComplexValue w).1.isComplex = true := by
  unfold _getComplexValue
  simp only
  split_ifs <;> rfl

theorem jsIndex_mem {α : Type} (xs : List α) (i : Int) (x : α) (h : jsIndex xs i = some x) :
    x ∈ xs := by
  unfold jsIndex at h
  split_ifs at h
  exact List.get?_mem h

theorem getRandomType_mem (config : Nat) (w : World) (k : Kind)
    (h : (_getRandomType config w).1 = some k) : k ∈ enabledTypes (w.heap config) := by
  exact jsIndex_mem (enabledTypes (w.heap config))
    ((w.random 0).floorMul (enabledTypes (w.heap config)).length) k h

theorem mem_enabledTypes_function (c : Config) :
    Kind.function ∈ enabledTypes c ↔ truthy c.functions = true := by
  unfold enabledTypes
  by_cases h1 : truthy c.functions = true <;> by_cases h2 : truthy c.arrays = true <;>
    by_cases h3 : truthy c.complexTypes = true <;> simp [h1, h2, h3]

theorem mem_enabledTypes_array (c : Config) :
    Kind.array ∈ enabledTypes c ↔ truthy c.arrays = true := by
  unfold enabledTypes
  by_cases h1 : truthy c.functions = true <;> by_cases h2 : truthy c.arrays = true <;>
    by_cases h3 : truthy c.complexTypes = true <;> simp [h1, h2, h3]

theorem mem_enabledTypes_complex (c : Config) :
    Kind.complex ∈ enabledTypes c ↔ truthy c.complexTypes = true := by
  unfold enabledTypes
  by_cases h1 : truthy c.functions = true <;> by_cases h2 : truthy c.arrays = true <;>
    by_cases h3 : truthy c.complexTypes = true <;> simp [h1, h2, h3]

/-! ## The two loops -/

/-- Invariant of the loop of `_getRandomObject`, for any value generator `g`
that keeps `Inv` and produces values in `P`: the node gains at most one own
property per iteration, always under a new key, and each gained value is in
`P`. -/
theorem objectLoop_spec (g : Nat → World → Option (JSValue × World)) (fuel config : Nat)
    (Inv : World → Prop) (P : JSValue → Prop)
    (hInv : ∀ w w', Inv w → w.Extends w' → Inv w')
    (hg : ∀ w v w', Inv w → g config w = some (v, w') → P v ∧ w.Extends w') :
    ∀ (n : Nat) (obj : JSObject) (w : World) (obj' : JSObject) (w' : World), Inv w →
      objectLoop g fuel config n obj w = some (obj', w') →
      w.Extends w' ∧ obj'.length ≤ obj.length + n ∧ (obj.keys.Nodup → obj'.keys.Nodup) ∧
        ∀ p ∈ obj', p ∈ obj ∨ P p.2 := by
  intro n
  induction n with
  | zero =>
    intro obj w obj' w' _ h
    simp only [objectLoop, Option.some.injEq, Prod.mk.injEq] at h
    obtain ⟨rfl, rfl⟩ := h
    exact ⟨World.Extends.ext_refl _, le_refl _, fun h => h, fun p hp => Or.inl hp⟩
  | succ n ih =>
    intro obj w obj' w' hI h
    unfold objectLoop at h
    cases hv : g config w with
    | none => simp [hv] at h
    | some r =>
      obtain ⟨value, w₁⟩ := r
      simp only [hv] at h
      obtain ⟨hP, hE₁⟩ := hg _ _ _ hI hv
      cases ha : attachChild fuel config value obj w₁ with
      | none => simp [ha] at h
      | some r₂ =>
        obtain ⟨obj₂, w₂⟩ := r₂
        simp only [ha] at h
        have hE₂ := attachChild_extends _ _ _ _ _ _ _ ha
        have hE := hE₁.ext_trans hE₂
        obtain ⟨hE₃, hlen, hnd, hall⟩ := ih _ _ _ _ (hInv _ _ hI hE) h
        obtain ⟨_, _, hs⟩ := attachChild_spec _ _ _ _ _ _ _ ha
        refine ⟨hE.ext_trans hE₃, ?_, ?_, ?_⟩
        · rcases hs with ⟨_, e, _⟩ | ⟨_, key, _, e⟩
          · rw [e] at hlen; omega
          · rw [e] at hlen; simp only [List.length_append, List.length_singleton] at hlen; omega
        · intro hobj
          apply hnd
          rcases hs with ⟨_, e, _⟩ | ⟨_, key, hk, e⟩
          · rw [e]; exact hobj
          · rw [e]; exact JSObject.nodup_keys_append _ _ _ hobj hk
        · intro p hp
          rcases hall p hp with h₂ | h₂
          · rcases hs with ⟨_, e, _⟩ | ⟨_, key, hk, e⟩
            · rw [e] at h₂; exact Or.inl h₂
            · rw [e] at h₂
              rcases List.mem_append.1 h₂ with h₃ | h₃
              · exact Or.inl h₃
              · rw [List.mem_singleton] at h₃
                rw [h₃]
                exact Or.inr hP
          · exact Or.inr h₂

/-- Invariant of the loop of `_getRandomArray`: one element is pushed per
iteration, and each is a value in `P`. -/
theorem arrayLoop_spec (g : Nat → World → Option (JSValue × World)) (config : Nat)
    (Inv : World → Prop) (P : JSValue → Prop)
    (hInv : ∀ w w', Inv w → w.Extends w' → Inv w')
    (hg : ∀ w v w', Inv w →
      g (_configReducedHeight config w).1 (_configReducedHeight config w).2 = some (v, w') →
      P v ∧ (_configReducedHeight config w).2.Extends w') :
    ∀ (n : Nat) (arr : List JSValue) (w : World) (arr' : List JSValue) (w' : World), Inv w →
      arrayLoop g config n arr w = some (arr', w') →
      w.Extends w' ∧ arr'.length = arr.length + n ∧ ∀ x ∈ arr', x ∈ arr ∨ P x := by
  intro n
  induction n with
  | zero =>
    intro arr w arr' w' _ h
    simp only [arrayLoop, Option.some.injEq, Prod.mk.injEq] at h
    obtain ⟨rfl, rfl⟩ := h
    exact ⟨World.Extends.ext_refl _, rfl, fun x hx => Or.inl hx⟩
  | succ n ih =>
    intro arr w arr' w' hI h
    unfold arrayLoop at h
    simp only at h
    cases hv : g (_configReducedHeight config w).1 (_configReducedHeight config w).2 with
    | none => simp [hv] at h
    | some r =>
      obtain ⟨value, w₁⟩ := r
      simp only [hv] at h
      obtain ⟨hP, hE₁⟩ := hg _ _ _ hI hv
      have hE := (configReducedHeight_extends config w).ext_trans hE₁
      obtain ⟨hE₂, hlen, hall⟩ := ih _ _ _ _ (hInv _ _ hI hE) h
      refine ⟨hE.ext_trans hE₂, ?_, ?_⟩
      · rw [hlen]; simp only [List.length_append, List.length_singleton]; omega
      · intro x hx
        rcases hall x hx with h₂ | h₂
        · rcases List.mem_append.1 h₂ with h₃ | h₃
          · exact Or.inl h₃
          · rw [List.mem_singleton] at h₃
            rw [h₃]
            exact Or.inr hP
        · exact Or.inr h₂

/-! ## The bodies of `_getRandomObject` and `_getRandomArray` -/

theorem getRandomObjectWith_spec (g : Nat → World → Option (JSValue × World))
    (fuel config : Nat) (Inv : World → Prop) (P : JSValue → Prop)
    (hInv : ∀ w w', Inv w → w.Extends w' → Inv w')
    (hg : ∀ w v w', Inv w → g config w = some (v, w') → P v ∧ w.Extends w')
    (obj : JSObject) (w : World) (v : JSValue) (w' : World) (hI : Inv w)
    (h : _getRandomObjectWith g fuel obj config w = some (v, w')) :
    w.Extends w' ∧
    ((leZero (w.heap config).maxHeight = true ∧ v = .null) ∨
     (leZero (w.heap config).maxHeight = false ∧ ∃ own : JSObject, v = .object own ∧
        own.length ≤ obj.length + breadthCap (w.heap config).maxBreadth ∧
        (obj.keys.Nodup → own.keys.Nodup) ∧ ∀ p ∈ own, p ∈ obj ∨ P p.2)) := by
  unfold _getRandomObjectWith at h
  by_cases hz : leZero (w.heap config).maxHeight = true
  · simp only [hz, if_true, Option.some.injEq, Prod.mk.injEq] at h
    obtain ⟨rfl, rfl⟩ := h
    exact ⟨World.Extends.ext_refl _, Or.inl ⟨hz, rfl⟩⟩
  · simp only [hz, Bool.false_eq_true, if_false] at h
    have hE₀ : w.Extends (mathRandom w).2 := (mathRandom_sameStore w).extends
    cases hl : objectLoop g fuel config
        (loopCount (numChildrenOf ((mathRandom w).2.heap config).maxBreadth (mathRandom w).1))
        obj (mathRandom w).2 with
    | none => simp [hl] at h
    | some r =>
      obtain ⟨own, w₁⟩ := r
      simp only [hl, Option.some.injEq, Prod.mk.injEq] at h
      obtain ⟨rfl, rfl⟩ := h
      obtain ⟨hE, hlen, hnd, hall⟩ :=
        objectLoop_spec g fuel config Inv P hInv hg _ _ _ _ _ (hInv _ _ hI hE₀) hl
      refine ⟨hE₀.ext_trans hE, Or.inr ⟨by simpa using hz, own, rfl, ?_, hnd, hall⟩⟩
      have := loopCount_le_breadthCap (w.heap config).maxBreadth (mathRandom w).1
      have e : (mathRandom w).2.heap = w.heap := rfl
      rw [e] at hlen
      omega

theorem getRandomArrayWith_spec (g : Nat → World → Option (JSValue × World))
    (config : Nat) (Inv : World → Prop) (P : JSValue → Prop)
    (hInv : ∀ w w', Inv w → w.Extends w' → Inv w')
    (hg : ∀ w v w', Inv w →
      g (_configReducedHeight config w).1 (_configReducedHeight config w).2 = some (v, w') →
      P v ∧ (_configReducedHeight config w).2.Extends w')
    (w : World) (v : JSValue) (w' : World) (hI : Inv w)
    (h : _getRandomArrayWith g config w = some (v, w')) :
    w.Extends w' ∧ ∃ elems, v = .array elems ∧
      elems.length ≤ breadthCap (w.heap config).maxBreadth ∧
      (elems ≠ [] → predLeZero (w.heap config).maxHeight = false) ∧ ∀ x ∈ elems, P x := by
  unfold _getRandomArrayWith at h
  have hE₀ : w.Extends (mathRandom w).2 := (mathRandom_sameStore w).extends
  have e : (mathRandom w).2.heap = w.heap := rfl
  simp only [e] at h
  by_cases hz : predLeZero (w.heap config).maxHeight = true
  · simp only [hz, if_true, Option.some.injEq, Prod.mk.injEq] at h
    obtain ⟨rfl, rfl⟩ := h
    exact ⟨hE₀, [], rfl, Nat.zero_le _, fun hne => absurd rfl hne, fun x hx => by simp at hx⟩
  · simp only [hz, Bool.false_eq_true, if_false] at h
    cases hl : arrayLoop g config
        (loopCount (numChildrenOf (w.heap config).maxBreadth (mathRandom w).1))
        [] (mathRandom w).2 with
    | none => simp [hl] at h
    | some r =>
      obtain ⟨elems, w₁⟩ := r
      simp only [hl, Option.some.injEq, Prod.mk.injEq] at h
      obtain ⟨rfl, rfl⟩ := h
      obtain ⟨hE, hlen, hall⟩ :=
        arrayLoop_spec g config Inv P hInv hg _ _ _ _ _ (hInv _ _ hI hE₀) hl
      refine ⟨hE₀.ext_trans hE, elems, rfl, ?_, fun _ => by simpa using hz, ?_⟩
      · have := loopCount_le_breadthCap (w.heap config).maxBreadth (mathRandom w).1
        simp only [List.length_nil] at hlen
        omega
      · intro x hx
        rcases hall x hx with h₂ | h₂
        · simp at h₂
        · exact h₂

/-! ## Frame of the generator -/

/-- Every call of `_getRandomValue` leaves the configuration objects that
exist when it starts as they are, and only adds new keys to the global
store. -/
theorem getRandomValue_extends : ∀ (fuel config : Nat) (w : World) (v : JSValue) (w' : World),
    _getRandomValue fuel config w = some (v, w') → w.Extends w' := by
  intro fuel
  induction fuel with
  | zero =>
    intro config w v w' h
    simp [_getRandomValue] at h
  | succ fuel ih =>
    intro config w v w' h
    unfold _getRandomValue at h
    have hE₀ : w.Extends (_getRandomType config w).2 := (getRandomType_sameStore config w).extends
    simp only at h
    split_ifs at h with hz
    · simp only [Option.some.injEq, Prod.mk.injEq] at h
      obtain ⟨_, rfl⟩ := h
      exact hE₀
    · split at h
      · simp only [Option.some.injEq] at h
        have e : w' = (_getSimpleValue (_getRandomType config w).2).2 := by rw [h]
        rw [e]
        exact hE₀.ext_trans (getSimpleValue_sameStore _).extends
      · exact hE₀.ext_trans (getRandomArrayWith_spec (_getRandomValue fuel) config (fun _ => True)
          (fun _ => True) (fun _ _ _ _ => trivial)
          (fun _ _ _ _ hv => ⟨trivial, ih _ _ _ _ hv⟩) _ _ _ trivial h).1
      · simp only [Option.some.injEq] at h
        have e : w' = (_getComplexValue (_getRandomType config w).2).2 := by rw [h]
        rw [e]
        exact hE₀.ext_trans (getComplexValue_sameStore _).extends
      · simp only [Option.some.injEq, Prod.mk.injEq] at h
        obtain ⟨_, rfl⟩ := h
        exact hE₀
      · exact (hE₀.ext_trans (configReducedHeight_extends _ _)).ext_trans
          (getRandomObjectWith_spec (_getRandomValue fuel) fuel _ (fun _ => True)
            (fun _ => True) (fun _ _ _ _ => trivial)
            (fun _ _ _ _ hv => ⟨trivial, ih _ _ _ _ hv⟩) _ _ _ _ trivial h).1

theorem getRandomObject_extends (fuel : Nat) (obj : JSObject) (config : Nat) (w : World)
    (v : JSValue) (w' : World) (h : _getRandomObject fuel obj config w = some (v, w')) :
    w.Extends w' :=
  (getRandomObjectWith_spec (_getRandomValue fuel) fuel config (fun _ => True)
    (fun _ => True) (fun _ _ _ _ => trivial)
    (fun _ _ _ _ hv => ⟨trivial, getRandomValue_extends _ _ _ _ _ hv⟩) _ _ _ _ trivial h).1

theorem getRandomArray_extends (fuel : Nat) (config : Nat) (w : World)
    (v : JSValue) (w' : World) (h : _getRandomArray fuel config w = some (v, w')) :
    w.Extends w' :=
  (getRandomArrayWith_spec (_getRandomValue fuel) config (fun _ => True)
    (fun _ => True) (fun _ _ _ _ => trivial)
    (fun _ _ _ _ hv => ⟨trivial, getRandomValue_extends _ _ _ _ _ hv⟩) _ _ _ trivial h).1

/-! ## Induction over the generator -/

theorem getRandomObjectWith_closed {PV PO : Config → JSValue → Prop} (hc : GenClosed PV PO)
    (g : Nat → World → Option (JSValue × World)) (fuel : Nat)
    (hE : ∀ config w v w', g config w = some (v, w') → w.Extends w')
    (hV : ∀ config w v w', config < w.next → g config w = some (v, w') → PV (w.heap config) v)
    (config : Nat) (w : World) (v : JSValue) (w' : World) (hlt : config < w.next)
    (h : _getRandomObjectWith g fuel [] config w = some (v, w')) : PO (w.heap config) v := by
  have hs := getRandomObjectWith_spec g fuel config
    (fun w₂ => w₂.heap config = w.heap config ∧ config < w₂.next) (PV (w.heap config))
    (fun w₁ w₂ hI hx => ⟨by rw [hx.heap_eq _ hI.2, hI.1], lt_of_lt_of_le hI.2 hx.next_le⟩)
    (fun w₁ v₁ w₂ hI hv => ⟨by rw [← hI.1]; exact hV _ _ _ _ hI.2 hv, hE _ _ _ _ hv⟩)
    [] w v w' ⟨rfl, hlt⟩ h
  rcases hs.2 with ⟨hz, rfl⟩ | ⟨hz, own, rfl, hlen, hnd, hall⟩
  · exact hc.null _ hz
  · refine hc.object _ own hz (by simpa using hlen) (hnd (by simp [JSObject.keys])) ?_
    intro p hp
    rcases hall p hp with h₁ | h₁
    · simp at h₁
    · exact h₁

theorem getRandomArrayWith_closed {PV PO : Config → JSValue → Prop} (hc : GenClosed PV PO)
    (g : Nat → World → Option (JSValue × World))
    (hE : ∀ config w v w', g config w = some (v, w') → w.Extends w')
    (hV : ∀ config w v w', config < w.next → g config w = some (v, w') → PV (w.heap config) v)
    (config : Nat) (w : World) (v : JSValue) (w' : World) (hlt : config < w.next)
    (hz : leZero (w.heap config).maxHeight = false) (ha : truthy (w.heap config).arrays = true)
    (h : _getRandomArrayWith g config w = some (v, w')) : PV (w.heap config) v := by
  have hs := getRandomArrayWith_spec g config
    (fun w₂ => w₂.heap config = w.heap config ∧ config < w₂.next)
    (PV (reducedHeight (w.heap config)))
    (fun w₁ w₂ hI hx => ⟨by rw [hx.heap_eq _ hI.2, hI.1], lt_of_lt_of_le hI.2 hx.next_le⟩)
    (fun w₁ v₁ w₂ hI hv => by
      refine ⟨?_, hE _ _ _ _ hv⟩
      have := hV _ _ _ _ (show (_configReducedHeight config w₁).1
        < (_configReducedHeight config w₁).2.next from Nat.lt_succ_self _) hv
      rw [configReducedHeight_heap, hI.1] at this
      exact this)
    w v w' ⟨rfl, hlt⟩ h
  obtain ⟨_, elems, rfl, hlen, hne, hall⟩ := hs
  exact hc.array _ elems hz ha hlen hne hall

/-- Induction principle for the generator: a pair of properties closed under
every way the source builds a value holds of every value `_getRandomValue`
returns. -/
theorem getRandomValue_closed {PV PO : Config → JSValue → Prop} (hc : GenClosed PV PO) :
    ∀ (fuel config : Nat) (w : World) (v : JSValue) (w' : World), config < w.next →
      _getRandomValue fuel config w = some (v, w') → PV (w.heap config) v := by
  intro fuel
  induction fuel with
  | zero =>
    intro config w v w' _ h
    simp [_getRandomValue] at h
  | succ fuel ih =>
    intro config w v w' hlt h
    unfold _getRandomValue at h
    have e : (_getRandomType config w).2.heap = w.heap := rfl
    have en : (_getRandomType config w).2.next = w.next := rfl
    simp only [e] at h
    split_ifs at h with hz
    · simp only [Option.some.injEq, Prod.mk.injEq] at h
      obtain ⟨rfl, _⟩ := h
      exact hc.exhausted _ hz
    · have hz' : leZero (w.heap config).maxHeight = false := by simpa using hz
      split at h
      · simp only [Option.some.injEq] at h
        have ev : v = (_getSimpleValue (_getRandomType config w).2).1 := by rw [h]
        rw [ev]
        exact hc.simple _ _ hz' (getSimpleValue_isSimple _)
      · next hk =>
        have ha := (mem_enabledTypes_array _).1 (getRandomType_mem _ _ _ hk)
        have := getRandomArrayWith_closed hc (_getRandomValue fuel) (getRandomValue_extends fuel) ih
          config (_getRandomType config w).2 v w' (by rw [en]; exact hlt)
          (by rw [e]; exact hz') (by rw [e]; exact ha) h
        rw [e] at this
        exact this
      · next hk =>
        have ha := (mem_enabledTypes_complex _).1 (getRandomType_mem _ _ _ hk)
        simp only [Option.some.injEq] at h
        have ev : v = (_getComplexValue (_getRandomType config w).2).1 := by rw [h]
        rw [ev]
        exact hc.complex _ _ hz' ha (getComplexValue_isComplex _)
      · next hk =>
        have ha := (mem_enabledTypes_function _).1 (getRandomType_mem _ _ _ hk)
        simp only [Option.some.injEq, Prod.mk.injEq] at h
        obtain ⟨rfl, _⟩ := h
        exact hc.func _ hz' ha
      · have := getRandomObjectWith_closed hc (_getRandomValue fuel) fuel
          (getRandomValue_extends fuel) ih
          (_configReducedHeight config (_getRandomType config w).2).1
          (_configReducedHeight config (_getRandomType config w).2).2 v w'
          (Nat.lt_succ_self _) h
        rw [configReducedHeight_heap, e] at this
        exact hc.objectValue _ _ hz' this

/-- Induction principle for the generator, for the values `_getRandomObject`
returns when it starts from an empty object. -/
theorem getRandomObject_closed {PV PO : Config → JSValue → Prop} (hc : GenClosed PV PO)
    (fuel config : Nat) (w : World) (v : JSValue) (w' : World) (hlt : config < w.next)
    (h : _getRandomObject fuel [] config w = some (v, w')) : PO (w.heap config) v :=
  getRandomObjectWith_closed hc (_getRandomValue fuel) fuel (getRandomValue_extends fuel)
    (getRandomValue_closed hc fuel) config w v w' hlt h

/-! ## The nodes of a tree -/

theorem mem_nodesOfElems (elems : List JSValue) (q : Nat × JSValue) :
    q ∈ nodesOfElems elems ↔ ∃ x ∈ elems, q ∈ x.nodes := by
  induction elems with
  | nil => simp [nodesOfElems]
  | cons x xs ih => simp [nodesOfElems, ih]

theorem mem_nodesOfProps (own : List (JSString × JSValue)) (q : Nat × JSValue) :
    q ∈ nodesOfProps own ↔ ∃ kv ∈ own, q ∈ kv.2.nodes := by
  induction own with
  | nil => simp [nodesOfProps]
  | cons kv rest ih =>
    obtain ⟨k, x⟩ := kv
    simp [nodesOfProps, ih]

theorem mem_nodes_array (elems : List JSValue) (p : Nat × JSValue) :
    p ∈ (JSValue.array elems).nodes ↔
      p = (0, JSValue.array elems) ∨ ∃ x ∈ elems, ∃ q ∈ x.nodes, p = (q.1 + 1, q.2) := by
  simp only [JSValue.nodes, List.mem_cons, List.mem_map, mem_nodesOfElems]
  constructor
  · rintro (h | ⟨q, ⟨x, hx, hq⟩, rfl⟩)
    · exact Or.inl h
    · exact Or.inr ⟨x, hx, q, hq, rfl⟩
  · rintro (h | ⟨x, hx, q, hq, rfl⟩)
    · exact Or.inl h
    · exact Or.inr ⟨q, ⟨x, hx, hq⟩, rfl⟩

theorem mem_nodes_object (own : List (JSString × JSValue)) (p : Nat × JSValue) :
    p ∈ (JSValue.object own).nodes ↔
      p = (0, JSValue.object own) ∨ ∃ kv ∈ own, ∃ q ∈ kv.2.nodes, p = (q.1 + 1, q.2) := by
  simp only [JSValue.nodes, List.mem_cons, List.mem_map, mem_nodesOfProps]
  constructor
  · rintro (h | ⟨q, ⟨x, hx, hq⟩, rfl⟩)
    · exact Or.inl h
    · exact Or.inr ⟨x, hx, q, hq, rfl⟩
  · rintro (h | ⟨x, hx, q, hq, rfl⟩)
    · exact Or.inl h
    · exact Or.inr ⟨q, ⟨x, hx, hq⟩, rfl⟩

theorem nodes_of_isSimple (v : JSValue) (h : v.isSimple = true) : v.nodes = [(0, v)] := by
  cases v <;> simp [JSValue.isSimple] at h <;> simp [JSValue.nodes]

theorem nodes_of_isComplex (v : JSValue) (h : v.isComplex = true) : v.nodes = [(0, v)] := by
  cases v <;> simp [JSValue.isComplex] at h <;> simp [JSValue.nodes]

theorem reducedHeight_maxHeight (c : Config) (h : Int) (hh : c.maxHeight = some h) :
    (reducedHeight c).maxHeight = some (h - 1) := by
  simp [reducedHeight, hh]

/-- A property of single values that holds of every root the source can build
holds of every node of every generated tree. -/
theorem GenClosed.nodewise (Q : Config → JSValue → Prop)
    (hQ : ∀ c v, Q (reducedHeight c) v → Q c v)
    (hsimple : ∀ c v, v.isSimple = true → Q c v)
    (hcomplex : ∀ c v, truthy c.complexTypes = true → v.isComplex = true → Q c v)
    (hfunc : ∀ c, truthy c.functions = true → Q c .func)
    (harray : ∀ c (elems : List JSValue), truthy c.arrays = true →
      elems.length ≤ breadthCap c.maxBreadth → Q c (.array elems))
    (hnull : ∀ c, Q c .null)
    (hobject : ∀ c (own : JSObject), own.length ≤ breadthCap c.maxBreadth →
      own.keys.Nodup → Q c (.object own)) :
    GenClosed (fun c v => ∀ p ∈ v.nodes, Q c p.2) (fun c v => ∀ p ∈ v.nodes, Q c p.2) where
  exhausted := by
    intro c _ p hp
    simp only [JSValue.nodes, List.mem_singleton] at hp
    rw [hp]
    exact hsimple _ _ rfl
  simple := by
    intro c v _ hv p hp
    rw [nodes_of_isSimple v hv, List.mem_singleton] at hp
    rw [hp]
    exact hsimple _ _ hv
  complex := by
    intro c v _ hc hv p hp
    rw [nodes_of_isComplex v hv, List.mem_singleton] at hp
    rw [hp]
    exact hcomplex _ _ hc hv
  func := by
    intro c _ hf p hp
    simp only [JSValue.nodes, List.mem_singleton] at hp
    rw [hp]
    exact hfunc _ hf
  array := by
    intro c elems _ ha hlen _ hall p hp
    rcases (mem_nodes_array elems p).1 hp with rfl | ⟨x, hx, q, hq, rfl⟩
    · exact harray _ _ ha hlen
    · exact hQ _ _ (hall x hx q hq)
  objectValue := by
    intro c v _ h p hp
    exact hQ _ _ (h p hp)
  null := by
    intro c _ p hp
    simp only [JSValue.nodes, List.mem_singleton] at hp
    rw [hp]
    exact hnull _
  object := by
    intro c own _ hlen hnd hall p hp
    rcases (mem_nodes_object own p).1 hp with rfl | ⟨kv, hkv, q, hq, rfl⟩
    · exact hobject _ _ hlen hnd
    · exact hall kv hkv q hq

/-- The closure conditions for "every node lies within the height budget". -/
theorem GenClosed.depth :
    GenClosed
      (fun c v => ∀ h, c.maxHeight = some h → 0 < h → ∀ p ∈ v.nodes, (p.1 : Int) + 1 ≤ h)
      (fun c v => ∀ h, c.maxHeight = some h → 0 ≤ h → ∀ p ∈ v.nodes, (p.1 : Int) ≤ h) where
  exhausted := by
    intro c hz h hh hpos
    simp [leZero, hh] at hz
    omega
  simple := by
    intro c v _ hv h _ hpos p hp
    rw [nodes_of_isSimple v hv, List.mem_singleton] at hp
    rw [hp]
    simp only [Nat.cast_zero]
    omega
  complex := by
    intro c v _ _ hv h _ hpos p hp
    rw [nodes_of_isComplex v hv, List.mem_singleton] at hp
    rw [hp]
    simp only [Nat.cast_zero]
    omega
  func := by
    intro c _ _ h _ hpos p hp
    simp only [JSValue.nodes, List.mem_singleton] at hp
    rw [hp]
    simp only [Nat.cast_zero]
    omega
  array := by
    intro c elems _ _ _ hne hall h hh hpos p hp
    rcases (mem_nodes_array elems p).1 hp with rfl | ⟨x, hx, q, hq, rfl⟩
    · simp only [Nat.cast_zero]
      omega
    · have hp' := hne (List.ne_nil_of_mem hx)
      simp only [predLeZero, hh, decide_eq_false_iff_not, not_le] at hp'
      have := hall x hx (h - 1) (reducedHeight_maxHeight c h hh) hp' q hq
      push_cast
      omega
  objectValue := by
    intro c v _ hv h hh hpos p hp
    have := hv (h - 1) (reducedHeight_maxHeight c h hh) (by omega) p hp
    omega
  null := by
    intro c _ h _ h0 p hp
    simp only [JSValue.nodes, List.mem_singleton] at hp
    rw [hp]
    simpa using h0
  object := by
    intro c own hz _ _ hall h hh h0 p hp
    simp only [leZero, hh, decide_eq_false_iff_not, not_le] at hz
    rcases (mem_nodes_object own p).1 hp with rfl | ⟨kv, hkv, q, hq, rfl⟩
    · simpa using h0
    · have := hall kv hkv h hh hz q hq
      push_cast
      omega

/-! ## C1: height zero -/

/-- C1, refuted as stated: with `maxHeight = 0` in the caller's configuration,
`getRandomObjectWrapper` returns `null`, which is not the empty mapping. -/
theorem generate_maxHeight_zero_returns_null :
    (getRandomObjectWrapper 5 (some 0) (sampleWorld Draw.half { maxHeight := some 0 })).map
        Prod.fst = some JSValue.null ∧
    (getRandomObjectWrapper 5 (some 0) (sampleWorld Draw.half { maxHeight := some 0 })).map
        Prod.fst ≠ some (JSValue.object []) := by
  have h : (getRandomObjectWrapper 5 (some 0)
      (sampleWorld Draw.half { maxHeight := some 0 })).map Prod.fst = some JSValue.null := rfl
  refine ⟨h, ?_⟩
  rw [h]
  intro e
  cases e

/-- C1, as amended: when `maxHeight` is a number `h <= 0`, `_getRandomObject`
returns `null` at once, for every fuel, every initial object and every random
source, leaving the world as it is; and `getRandomObjectWrapper`, given a
caller configuration with such a `maxHeight`, returns `null`. -/
theorem getRandomObject_null_of_maxHeight_le_zero (fuel : Nat) (initialObj : JSObject)
    (caller config : Nat) (w : World) (h : Int) (h0 : h ≤ 0)
    (hcaller : (w.heap caller).maxHeight = some h)
    (hconfig : (w.heap config).maxHeight = some h) :
    _getRandomObject fuel initialObj config w = some (JSValue.null, w) ∧
    (getRandomObjectWrapper fuel (some caller) w).map Prod.fst = some JSValue.null := by
  constructor
  · simp [_getRandomObject, _getRandomObjectWith, leZero, hconfig, h0]
  · simp [getRandomObjectWrapper, _getRandomObject, _getRandomObjectWith, allocConfig,
      resolveConfig, leZero, hcaller, h0]

/-- Witness for C1: a caller configuration with `maxHeight = -2`. -/
theorem getRandomObject_null_of_maxHeight_le_zero_witness :
    (-2 : Int) ≤ 0 ∧
    _getRandomObject 0 [] 0 (sampleWorld Draw.half { maxHeight := some (-2) })
      = some (JSValue.null, sampleWorld Draw.half { maxHeight := some (-2) }) ∧
    (getRandomObjectWrapper 0 (some 0) (sampleWorld Draw.half { maxHeight := some (-2) })).map
      Prod.fst = some JSValue.null :=
  ⟨by decide, getRandomObject_null_of_maxHeight_le_zero 0 [] 0 0
    (sampleWorld Draw.half { maxHeight := some (-2) }) (-2) (by decide) rfl rfl⟩

/-! ## C2: breadth -/

/-- C2: for a configuration object (an existing one: `config < w.next`) whose
`maxBreadth` is an integer `b >= 0`, and for every random source, every
composite node of a tree built by `_getRandomObject` (every mapping and every
array in it, the root included) has at least `0` and at most `b` direct
children. -/
theorem getRandomObject_childCount_le_maxBreadth (fuel config : Nat) (w : World) (b : Int)
    (v : JSValue) (w' : World) (hconfig : config < w.next)
    (hb : (w.heap config).maxBreadth = some b) (hb0 : 0 ≤ b)
    (hres : _getRandomObject fuel [] config w = some (v, w')) :
    ∀ p ∈ v.nodes, ∀ n, p.2.childCount = some n → 0 ≤ (n : Int) ∧ (n : Int) ≤ b := by
  have hc := GenClosed.nodewise
    (fun c v => ∀ b, c.maxBreadth = some b → 0 ≤ b →
      ∀ n, v.childCount = some n → 0 ≤ (n : Int) ∧ (n : Int) ≤ b)
    (fun c v hv b hb hb0 => hv b (by simpa [reducedHeight] using hb) hb0)
    (fun c v hv b _ _ n hn => by cases v <;> simp [JSValue.isSimple, JSValue.childCount] at hv hn)
    (fun c v _ hv b _ _ n hn => by
      cases v <;> simp [JSValue.isComplex, JSValue.childCount] at hv hn)
    (fun c _ b _ _ n hn => by simp [JSValue.childCount] at hn)
    (fun c elems _ hlen b hb hb0 n hn => by
      simp only [JSValue.childCount, Option.some.injEq] at hn
      simp only [hb, breadthCap] at hlen
      omega)
    (fun c b _ _ n hn => by simp [JSValue.childCount] at hn)
    (fun c own hlen _ b hb hb0 n hn => by
      simp only [JSValue.childCount, Option.some.injEq] at hn
      simp only [hb, breadthCap] at hlen
      omega)
  intro p hp
  exact getRandomObject_closed hc fuel config w v w' hconfig hres p hp b hb hb0

/-- Witness for C2: the run on `leafConfig`, whose root has one child. -/
theorem getRandomObject_childCount_le_maxBreadth_witness :
    _getRandomObject 1 [] 0 (sampleWorld Draw.half leafConfig) = some (leafTree, leafWorldAfter) ∧
    ∀ p ∈ leafTree.nodes, ∀ n, p.2.childCount = some n → 0 ≤ (n : Int) ∧ (n : Int) ≤ 1 :=
  ⟨rfl, getRandomObject_childCount_le_maxBreadth 1 0 (sampleWorld Draw.half leafConfig) 1
    leafTree leafWorldAfter (by decide) rfl (by decide) rfl⟩

/-! ## C3: height -/

/-- C3: for a configuration object (an existing one: `config < w.next`) whose
`maxHeight` is an integer `h >= 0`, and for every random source, no value of a
tree built by `_getRandomObject` lies more than `h` edges (own properties and
array elements) below the root. -/
theorem getRandomObject_depth_le_maxHeight (fuel config : Nat) (w : World) (h : Int)
    (v : JSValue) (w' : World) (hconfig : config < w.next)
    (hh : (w.heap config).maxHeight = some h) (h0 : 0 ≤ h)
    (hres : _getRandomObject fuel [] config w = some (v, w')) :
    ∀ p ∈ v.nodes, (p.1 : Int) ≤ h :=
  getRandomObject_closed GenClosed.depth fuel config w v w' hconfig hres h hh h0

/-- Witness for C3: the run on `leafConfig`, of height `1`, whose deepest value
is one edge below the root. -/
theorem getRandomObject_depth_le_maxHeight_witness :
    _getRandomObject 1 [] 0 (sampleWorld Draw.half leafConfig) = some (leafTree, leafWorldAfter) ∧
    ∀ p ∈ leafTree.nodes, (p.1 : Int) ≤ 1 :=
  ⟨rfl, getRandomObject_depth_le_maxHeight 1 0 (sampleWorld Draw.half leafConfig) 1
    leafTree leafWorldAfter (by decide) rfl (by decide) rfl⟩

/-! ## C4: keys -/

/-- C4: in a tree built by `_getRandomObject` (from an existing configuration
object, for every random source), the own keys of every mapping
node are pairwise distinct; the global store the `onPrototype` children go to
only grows, by properties whose keys are pairwise distinct and distinct from
the keys it had; and a key returned by `_getUniqueKey` is never one of the
exclusions. -/
theorem getRandomObject_keys_distinct (fuel config : Nat) (w : World) (v : JSValue)
    (w' : World) (hconfig : config < w.next)
    (hres : _getRandomObject fuel [] config w = some (v, w')) :
    (∀ p ∈ v.nodes, ∀ own : JSObject, p.2 = JSValue.object own → own.keys.Nodup) ∧
    (∃ added : JSObject, w'.objectPrototype = w.objectPrototype ++ added ∧
      added.keys.Nodup ∧ ∀ k ∈ added.keys, k ∉ w.objectPrototype.keys) ∧
    (∀ (fuel₁ : Nat) (exclusions : List JSString) (w₁ : World) (key : JSString) (w₂ : World),
      _getUniqueKey fuel₁ exclusions w₁ = some (key, w₂) → key ∉ exclusions) := by
  refine ⟨?_, (getRandomObject_extends _ _ _ _ _ _ hres).store, ?_⟩
  · have hc := GenClosed.nodewise
      (fun _ v => ∀ own : JSObject, v = JSValue.object own → own.keys.Nodup)
      (fun c v hv => hv)
      (fun c v hv own e => by rw [e] at hv; simp [JSValue.isSimple] at hv)
      (fun c v _ hv own e => by rw [e] at hv; simp [JSValue.isComplex] at hv)
      (fun c _ own e => by cases e)
      (fun c elems _ _ own e => by cases e)
      (fun c own e => by cases e)
      (fun c own _ hnd own₁ e => by
        simp only [JSValue.object.injEq] at e
        rw [← e]
        exact hnd)
    exact getRandomObject_closed hc fuel config w v w' hconfig hres
  · intro fuel₁ exclusions w₁ key w₂ hk
    exact (getUniqueKey_spec _ _ _ _ _ hk).1

/-- Witness for C4: the run on `protoConfig`, whose child goes to the store. -/
theorem getRandomObject_keys_distinct_witness :
    _getRandomObject 1 [] 0 (sampleWorld Draw.half protoConfig)
      = some (JSValue.object [], protoWorldAfter) ∧
    (∀ p ∈ (JSValue.object []).nodes, ∀ own : JSObject,
      p.2 = JSValue.object own → own.keys.Nodup) ∧
    (∃ added : JSObject,
      protoWorldAfter.objectPrototype
        = (sampleWorld Draw.half protoConfig).objectPrototype ++ added ∧
      added.keys.Nodup ∧
      ∀ k ∈ added.keys, k ∉ (sampleWorld Draw.half protoConfig).objectPrototype.keys) ∧
    (∀ (fuel₁ : Nat) (exclusions : List JSString) (w₁ : World) (key : JSString) (w₂ : World),
      _getUniqueKey fuel₁ exclusions w₁ = some (key, w₂) → key ∉ exclusions) :=
  ⟨rfl, getRandomObject_keys_distinct 1 0 (sampleWorld Draw.half protoConfig)
    (JSValue.object []) protoWorldAfter (by decide) rfl⟩

/-! ## C5: kinds of leaves with every toggle off -/

/-- C5, refuted as stated: with `arrays`, `functions` and `complexTypes` all
`false`, the tree built from `leafConfig` holds `null`, which is neither a
mapping nor a string, number, `undefined` or boolean. -/
theorem leaf_null_is_not_simple :
    _getRandomObject 1 [] 0 (sampleWorld Draw.half leafConfig) = some (leafTree, leafWorldAfter) ∧
    (1, JSValue.null) ∈ leafTree.nodes ∧
    ¬ ∀ p ∈ leafTree.nodes, p.2.isObject = false → p.2.isSimple = true := by
  have hmem : (1, JSValue.null) ∈ leafTree.nodes := by
    simp [leafTree, JSValue.nodes, nodesOfProps]
  refine ⟨rfl, hmem, fun h => ?_⟩
  have := h _ hmem rfl
  simp [JSValue.isSimple] at this

/-- C5, as amended: with `arrays`, `functions` and `complexTypes` all falsy in
an existing configuration object, for every random source, every value of a
tree built by `_getRandomObject` that is not a mapping is a
string, a number, `undefined`, a boolean or `null`; it is never an array, a
function or a complex value. -/
theorem getRandomObject_leaves_simple_or_null (fuel config : Nat) (w : World) (v : JSValue)
    (w' : World) (hconfig : config < w.next)
    (harrays : truthy (w.heap config).arrays = false)
    (hfunctions : truthy (w.heap config).functions = false)
    (hcomplex : truthy (w.heap config).complexTypes = false)
    (hres : _getRandomObject fuel [] config w = some (v, w')) :
    ∀ p ∈ v.nodes, p.2.isObject = false → p.2.isSimple = true ∨ p.2 = JSValue.null := by
  have hc := GenClosed.nodewise
    (fun c v => truthy c.arrays = false → truthy c.functions = false →
      truthy c.complexTypes = false →
      v.isObject = false → v.isSimple = true ∨ v = JSValue.null)
    (fun c v hv ha hf hx => hv (by simpa [reducedHeight] using ha)
      (by simpa [reducedHeight] using hf) (by simpa [reducedHeight] using hx))
    (fun c v hv _ _ _ _ => Or.inl hv)
    (fun c v hx _ _ _ hx' _ => by rw [hx] at hx'; cases hx')
    (fun c hf _ hf' _ _ => by rw [hf] at hf'; cases hf')
    (fun c elems ha _ ha' _ _ _ => by rw [ha] at ha'; cases ha')
    (fun c _ _ _ _ => Or.inr rfl)
    (fun c own _ _ _ _ _ ho => by simp [JSValue.isObject] at ho)
  intro p hp
  exact getRandomObject_closed hc fuel config w v w' hconfig hres p hp harrays hfunctions hcomplex

/-- Witness for C5, as amended: the run on `leafConfig`, whose only leaf is
`null`. -/
theorem getRandomObject_leaves_simple_or_null_witness :
    _getRandomObject 1 [] 0 (sampleWorld Draw.half leafConfig) = some (leafTree, leafWorldAfter) ∧
    ∀ p ∈ leafTree.nodes, p.2.isObject = false → p.2.isSimple = true ∨ p.2 = JSValue.null :=
  ⟨rfl, getRandomObject_leaves_simple_or_null 1 0 (sampleWorld Draw.half leafConfig) leafTree
    leafWorldAfter (by decide) rfl rfl rfl rfl⟩

/-! ## C6: breadth zero -/

/-- C6, on a failing input: the caller asks for `maxBreadth = 0` and
`maxHeight = 1`, every draw is `1/4`, and the root of the returned tree has a
child.  The caller's object has no `maxWidth` property, so `currConfig` gets
`maxBreadth = 5`; `numChildren` is `floor(1/4 * 6) = 1`; the child is of kind
`simple` (`floor(1/4 * 2) = 0`), a number (`floor(1/4 * 4) = 1`), `1/4 * 10`. -/
theorem generate_ignores_maxBreadth_zero :
    (getRandomObjectWrapper 1 (some 0) (sampleWorld Draw.quarter noBreadthConfig)).map Prod.fst
      = some (JSValue.object [(sampleKey, JSValue.num 10 4)]) :=
  rfl

/-! ## C7: defaults -/

/-- What `getRandomObjectWrapper` resolves each field to: five fields take the
caller's value when present and the documented default otherwise; `maxBreadth`
takes `5` when the caller has no `maxWidth` property and the caller's
`maxBreadth`, present or not, when it has one. -/
theorem resolveConfig_fields (c : Config) :
    (resolveConfig c).maxHeight = some (c.maxHeight.getD 5) ∧
    (resolveConfig c).arrays = some (c.arrays.getD false) ∧
    (resolveConfig c).functions = some (c.functions.getD false) ∧
    (resolveConfig c).complexTypes = some (c.complexTypes.getD false) ∧
    (resolveConfig c).onPrototype = some (c.onPrototype.getD false) ∧
    (c.maxWidth = false → (resolveConfig c).maxBreadth = some 5) ∧
    (c.maxWidth = true → (resolveConfig c).maxBreadth = c.maxBreadth) := by
  obtain ⟨mw, mb, mh, ar, fn, cx, op⟩ := c
  refine ⟨?_, ?_, ?_, ?_, ?_, ?_, ?_⟩
  · cases mh <;> rfl
  · cases ar <;> rfl
  · cases fn <;> rfl
  · cases cx <;> rfl
  · cases op <;> rfl
  · intro h
    simp only at h
    simp [resolveConfig, h]
  · intro h
    simp only at h
    simp [resolveConfig, h]

/-- C7, on a failing input: a caller configuration that has a `maxWidth`
property and no `maxBreadth` resolves to `maxBreadth = undefined`, not to `5`,
the default; without `maxWidth` that default is taken. -/
theorem resolveConfig_maxWidth_without_maxBreadth :
    (resolveConfig { maxWidth := true }).maxBreadth = none ∧
    (resolveConfig { maxWidth := false }).maxBreadth = some 5 ∧
    (getRandomObjectWrapper 1 (some 0) (sampleWorld Draw.half { maxWidth := true })).map
      (fun p => ((p.2.heap 1).maxBreadth, p.1.childCount)) = some (none, some 0) := by
  decide

/-! ## C8: configuration objects are never written after they are built -/

/-- C8: `getRandomObjectWrapper` leaves every configuration object that exists
when it is called, the caller's among them, as it is; `_configReducedHeight`
leaves its argument (and every other existing object) as it is and returns a
new object that agrees with the argument on every field but `maxHeight`; and
in the loop of `_getRandomObject`, after a child has been produced and
attached, the rest of the loop runs with the contents of `config` unchanged,
so every sibling is built from the same, unreduced configuration. -/
theorem config_objects_not_mutated :
    (∀ (fuel : Nat) (config : Option Nat) (w : World) (v : JSValue) (w' : World),
      getRandomObjectWrapper fuel config w = some (v, w') →
      ∀ a, a < w.next → w'.heap a = w.heap a) ∧
    (∀ (config : Nat) (w : World), config < w.next →
      (∀ a, a < w.next → (_configReducedHeight config w).2.heap a = w.heap a) ∧
      ¬ (_configReducedHeight config w).1 < w.next ∧
      (_configReducedHeight config w).2.heap (_configReducedHeight config w).1
        = { w.heap config with
            maxHeight := ((_configReducedHeight config w).2.heap
              (_configReducedHeight config w).1).maxHeight }) ∧
    (∀ (fuel config n : Nat) (obj : JSObject) (w : World) (res : JSObject × World),
      config < w.next →
      objectLoop (_getRandomValue fuel) fuel config (n + 1) obj w = some res →
      ∃ value w₁ obj₁ w₂, _getRandomValue fuel config w = some (value, w₁) ∧
        attachChild fuel config value obj w₁ = some (obj₁, w₂) ∧
        objectLoop (_getRandomValue fuel) fuel config n obj₁ w₂ = some res ∧
        w₂.heap config = w.heap config) := by
  refine ⟨?_, ?_, ?_⟩
  · intro fuel config w v w' h a ha
    unfold getRandomObjectWrapper at h
    cases config with
    | some ref =>
      simp only at h
      have hE := (allocConfig_extends _ _).ext_trans (getRandomObject_extends _ _ _ _ _ _ h)
      exact hE.heap_eq a ha
    | none =>
      simp only at h
      have hE := ((allocConfig_extends _ _).ext_trans (allocConfig_extends _ _)).ext_trans
        (getRandomObject_extends _ _ _ _ _ _ h)
      exact hE.heap_eq a ha
  · intro config w _
    refine ⟨(configReducedHeight_extends config w).heap_eq, Nat.lt_irrefl _, ?_⟩
    rw [configReducedHeight_heap]
    rfl
  · intro fuel config n obj w res hlt h
    unfold objectLoop at h
    cases hv : _getRandomValue fuel config w with
    | none => simp [hv] at h
    | some r =>
      obtain ⟨value, w₁⟩ := r
      simp only [hv] at h
      cases ha : attachChild fuel config value obj w₁ with
      | none => simp [ha] at h
      | some r₂ =>
        obtain ⟨obj₁, w₂⟩ := r₂
        simp only [ha] at h
        refine ⟨value, w₁, obj₁, w₂, rfl, ha, h, ?_⟩
        have hE := (getRandomValue_extends _ _ _ _ _ hv).ext_trans
          (attachChild_extends _ _ _ _ _ _ _ ha)
        exact hE.heap_eq config hlt

/-- Witness for C8: the run of `getRandomObjectWrapper` on `callerConfig`, which
allocates two objects and leaves the caller's, at reference `0`, as it was. -/
theorem config_objects_not_mutated_witness :
    getRandomObjectWrapper 1 (some 0) (sampleWorld Draw.half callerConfig)
      = some (leafTree, callerWorldAfter) ∧
    callerWorldAfter.heap 0 = (sampleWorld Draw.half callerConfig).heap 0 ∧
    (_configReducedHeight 0 (sampleWorld Draw.half callerConfig)).2.heap 0
      = (sampleWorld Draw.half callerConfig).heap 0 :=
  ⟨rfl,
   config_objects_not_mutated.1 1 (some 0) (sampleWorld Draw.half callerConfig) leafTree
     callerWorldAfter rfl 0 (by decide),
   (config_objects_not_mutated.2.1 0 (sampleWorld Draw.half callerConfig) (by decide)).1 0
     (by decide)⟩

/-! ## C9: the store of the `onPrototype` children -/

/-- C9, on a failing input: with `onPrototype` on, a call of
`getRandomObjectWrapper` returns the empty mapping and leaves its one child in
the global `Object.prototype`, outside the returned tree; a second call reads
its exclusions from that same store and writes its own child next to the
first. -/
theorem generate_writes_global_store :
    (sampleWorld Draw.half protoCallerConfig).objectPrototype = [] ∧
    getRandomObjectWrapper 1 (some 0) (sampleWorld Draw.half protoCallerConfig)
      = some (JSValue.object [], protoCallerWorldAfter) ∧
    protoCallerWorldAfter.objectPrototype = [(sampleKey, JSValue.null)] ∧
    getRandomObjectWrapper 1 (some 0) protoCallerWorldAfter
      = some (JSValue.object [], protoCallerWorldAfterTwo) ∧
    protoCallerWorldAfterTwo.objectPrototype
      = [(sampleKey, JSValue.null), (sampleKey₂, JSValue.null)] :=
  ⟨rfl, rfl, rfl, rfl, rfl⟩

/-! ## C10: the kind drawn by `_getRandomType` -/

theorem Draw.floorMul_index (i n : Nat) (h : i < n) :
    (Draw.mk i n h).floorMul n = i := by
  unfold Draw.floorMul
  have hn : (n : Int) ≠ 0 := by
    have : 0 < n := Nat.lt_of_le_of_lt (Nat.zero_le _) h
    exact_mod_cast Nat.ne_of_gt this
  exact Int.mul_ediv_cancel _ hn

theorem mem_enabledTypes (c : Config) (k : Kind) :
    k ∈ enabledTypes c ↔
      k = Kind.simple ∨ k = Kind.object ∨ (k = Kind.function ∧ truthy c.functions = true) ∨
      (k = Kind.array ∧ truthy c.arrays = true) ∨
      (k = Kind.complex ∧ truthy c.complexTypes = true) := by
  unfold enabledTypes
  by_cases h1 : truthy c.functions = true <;> by_cases h2 : truthy c.arrays = true <;>
    by_cases h3 : truthy c.complexTypes = true <;> simp [h1, h2, h3]

/-- C10: the index `floor(r * types.length)` that `_getRandomType` computes is
within the list; the kind it returns is a member of the enabled set, which
holds `simple` and `object` always, and `function`, `array`, `complex` exactly
when their toggle is truthy; and every enabled kind is returned for some
draw. -/
theorem getRandomType_enabled (config : Nat) (w : World) :
    (0 ≤ (w.random 0).floorMul (enabledTypes (w.heap config)).length ∧
      (w.random 0).floorMul (enabledTypes (w.heap config)).length
        < (enabledTypes (w.heap config)).length) ∧
    (∃ k, (_getRandomType config w).1 = some k ∧ k ∈ enabledTypes (w.heap config)) ∧
    (∀ k, k ∈ enabledTypes (w.heap config) ↔
      k = Kind.simple ∨ k = Kind.object ∨
      (k = Kind.function ∧ truthy (w.heap config).functions = true) ∨
      (k = Kind.array ∧ truthy (w.heap config).arrays = true) ∨
      (k = Kind.complex ∧ truthy (w.heap config).complexTypes = true)) ∧
    (∀ k, k ∈ enabledTypes (w.heap config) →
      ∃ r : Draw, (_getRandomType config { w with random := fun _ => r }).1 = some k) := by
  have hpos : 0 < (enabledTypes (w.heap config)).length := by
    unfold enabledTypes
    simp
  have hlo := (w.random 0).floorMul_nonneg
    (show (0 : Int) ≤ ((enabledTypes (w.heap config)).length : Int) from Int.ofNat_nonneg _)
  have hhi := (w.random 0).floorMul_lt
    (show (0 : Int) < ((enabledTypes (w.heap config)).length : Int) by exact_mod_cast hpos)
  refine ⟨⟨hlo, hhi⟩, ?_, mem_enabledTypes _, ?_⟩
  · have hlt : ((w.random 0).floorMul (enabledTypes (w.heap config)).length).toNat
        < (enabledTypes (w.heap config)).length := by omega
    refine ⟨(enabledTypes (w.heap config)).get ⟨_, hlt⟩, ?_, List.get_mem _ _ _⟩
    show jsIndex (enabledTypes (w.heap config))
      ((w.random 0).floorMul (enabledTypes (w.heap config)).length) = _
    unfold jsIndex
    rw [if_neg (not_lt.2 hlo)]
    exact List.get?_eq_get hlt
  · intro k hk
    obtain ⟨i, hget⟩ := List.mem_iff_get?.1 hk
    have hi : i < (enabledTypes (w.heap config)).length := by
      rcases Nat.lt_or_ge i (enabledTypes (w.heap config)).length with hlt | hge
      · exact hlt
      · rw [List.get?_eq_none.2 hge] at hget
        cases hget
    refine ⟨⟨i, _, hi⟩, ?_⟩
    show jsIndex (enabledTypes (w.heap config))
      ((Draw.mk i _ hi).floorMul (enabledTypes (w.heap config)).length) = _
    rw [Draw.floorMul_index]
    unfold jsIndex
    rw [if_neg (by omega)]
    simpa using hget

/-- Witness for C10: `object` is enabled in `leafConfig`, and some draw returns
it. -/
theorem getRandomType_enabled_witness :
    Kind.object ∈ enabledTypes ((sampleWorld Draw.half leafConfig).heap 0) ∧
    ∃ r : Draw,
      (_getRandomType 0 { sampleWorld Draw.half leafConfig with random := fun _ => r }).1
        = some Kind.object :=
  ⟨by decide,
   (getRandomType_enabled 0 (sampleWorld Draw.half leafConfig)).2.2.2 Kind.object (by decide)⟩

/-! ## C11: negative bounds -/

/-- C11, refuted as stated: a negative `maxHeight` and a negative `maxBreadth`
(read, because the caller's object has a `maxWidth` property) are both
accepted; the first gives `null`, the second the empty mapping.  Nothing in
the source raises an error. -/
theorem generate_accepts_negative_bounds :
    (getRandomObjectWrapper 0 (some 0) (sampleWorld Draw.half negativeHeightConfig)).map
      Prod.fst = some JSValue.null ∧
    (getRandomObjectWrapper 0 (some 0) (sampleWorld Draw.half negativeBreadthConfig)).map
      Prod.fst = some (JSValue.object []) :=
  ⟨rfl, rfl⟩

/-- C11, as amended: for a caller configuration whose `maxHeight` is negative,
or whose `maxBreadth` is negative and read (the object has a `maxWidth`
property), `getRandomObjectWrapper` does not fail: for every fuel and every
random source it returns `null` when the resolved `maxHeight` is `<= 0` and
the empty mapping otherwise. -/
theorem generate_negative_bounds_value (fuel caller : Nat) (w : World)
    (hneg : (∃ h, (w.heap caller).maxHeight = some h ∧ h < 0) ∨
      ((w.heap caller).maxWidth = true ∧ ∃ b, (w.heap caller).maxBreadth = some b ∧ b < 0)) :
    (getRandomObjectWrapper fuel (some caller) w).map Prod.fst
      = some (if leZero (resolveConfig (w.heap caller)).maxHeight then JSValue.null
          else JSValue.object []) := by
  unfold getRandomObjectWrapper _getRandomObject _getRandomObjectWith
  simp only [allocConfig_heap]
  by_cases hz : leZero (resolveConfig (w.heap caller)).maxHeight = true
  · simp [hz]
  · simp only [hz, Bool.false_eq_true, if_false]
    have hcount : loopCount (numChildrenOf (resolveConfig (w.heap caller)).maxBreadth
        (mathRandom (allocConfig (resolveConfig (w.heap caller)) w).2).1) = 0 := by
      rcases hneg with ⟨h, hh, hlt⟩ | ⟨hw, b, hb, hlt⟩
      · exfalso
        apply hz
        simp [resolveConfig, hh, leZero]
        omega
      · have hb' : (resolveConfig (w.heap caller)).maxBreadth = some b := by
          simp [resolveConfig, hw, hb]
        rw [hb']
        simp only [numChildrenOf, Option.map_some', loopCount]
        have := Draw.floorMul_nonpos
          (mathRandom (allocConfig (resolveConfig (w.heap caller)) w).2).1
          (show b + 1 ≤ 0 by omega)
        omega
    have e : (mathRandom (allocConfig (resolveConfig (w.heap caller)) w).2).2.heap
        (allocConfig (resolveConfig (w.heap caller)) w).1
        = resolveConfig (w.heap caller) := allocConfig_heap _ _
    simp only [e, hcount, objectLoop, Option.map_some']

/-- Witness for C11, as amended: the negative `maxBreadth` of
`negativeBreadthConfig` gives the empty mapping. -/
theorem generate_negative_bounds_value_witness :
    (getRandomObjectWrapper 0 (some 0) (sampleWorld Draw.half negativeBreadthConfig)).map
      Prod.fst
      = some (if leZero (resolveConfig ((sampleWorld Draw.half negativeBreadthConfig).heap 0)).maxHeight
          then JSValue.null else JSValue.object []) :=
  generate_negative_bounds_value 0 0 (sampleWorld Draw.half negativeBreadthConfig)
    (Or.inr ⟨rfl, -3, rfl, by decide⟩)

/-! ## C12: a supplied `maxBreadth` -/

/-- C12, refuted as stated: a caller configuration that supplies
`maxBreadth = 3` and also has a `maxWidth` property resolves to
`maxBreadth = 3`, not `5`. -/
theorem resolveConfig_honours_maxBreadth_with_maxWidth :
    (resolveConfig widthAndBreadthConfig).maxBreadth = some 3 ∧
    (getRandomObjectWrapper 0 (some 0) (sampleWorld Draw.half widthAndBreadthConfig)).map
      (fun p => (p.2.heap 1).maxBreadth) = some (some 3) := by
  decide

/-- C12, as amended: for a caller configuration that supplies `maxBreadth` and
has no `maxWidth` property, the configuration object that
`getRandomObjectWrapper` builds and hands to `_getRandomObject` has
`maxBreadth = 5`. -/
theorem generate_drops_maxBreadth_without_maxWidth (fuel caller : Nat) (w : World) (b : Int)
    (_hb : (w.heap caller).maxBreadth = some b) (hw : (w.heap caller).maxWidth = false) :
    getRandomObjectWrapper fuel (some caller) w
      = _getRandomObject fuel [] (allocConfig (resolveConfig (w.heap caller)) w).1
          (allocConfig (resolveConfig (w.heap caller)) w).2 ∧
    ((allocConfig (resolveConfig (w.heap caller)) w).2.heap
      (allocConfig (resolveConfig (w.heap caller)) w).1).maxBreadth = some 5 := by
  refine ⟨rfl, ?_⟩
  rw [allocConfig_heap]
  simp [resolveConfig, hw]

/-- Witness for C12, as amended: `noBreadthConfig` supplies `maxBreadth = 0`. -/
theorem generate_drops_maxBreadth_without_maxWidth_witness :
    getRandomObjectWrapper 1 (some 0) (sampleWorld Draw.quarter noBreadthConfig)
      = _getRandomObject 1 []
          (allocConfig (resolveConfig ((sampleWorld Draw.quarter noBreadthConfig).heap 0))
            (sampleWorld Draw.quarter noBreadthConfig)).1
          (allocConfig (resolveConfig ((sampleWorld Draw.quarter noBreadthConfig).heap 0))
            (sampleWorld Draw.quarter noBreadthConfig)).2 ∧
    ((allocConfig (resolveConfig ((sampleWorld Draw.quarter noBreadthConfig).heap 0))
        (sampleWorld Draw.quarter noBreadthConfig)).2.heap
      (allocConfig (resolveConfig ((sampleWorld Draw.quarter noBreadthConfig).heap 0))
        (sampleWorld Draw.quarter noBreadthConfig)).1).maxBreadth = some 5 :=
  generate_drops_maxBreadth_without_maxWidth 1 0 (sampleWorld Draw.quarter noBreadthConfig) 0
    rfl rfl

/-! ## C14: the height of the reduced copy -/

/-- C14, refuted as stated: from a configuration with `maxHeight = 0` the copy
has `maxHeight = -1`, not `max(0 - 1, 0) = 0`; the decrement has no floor. -/
theorem configReducedHeight_zero_gives_minus_one :
    ((_configReducedHeight 0 (sampleWorld Draw.half { maxHeight := some 0 })).2.heap
      (_configReducedHeight 0 (sampleWorld Draw.half { maxHeight := some 0 })).1).maxHeight
      = some (-1) ∧
    (some (-1) : Option Int) ≠ some (max (0 - 1) 0) := by
  decide

/-- C14, as amended: for a configuration whose `maxHeight` is an integer `h`,
the copy returned by `_configReducedHeight` has `maxHeight = h - 1`, which is
`max(h - 1, 0)` exactly when `h >= 1`. -/
theorem configReducedHeight_maxHeight (config : Nat) (w : World) (h : Int)
    (hh : (w.heap config).maxHeight = some h) :
    ((_configReducedHeight config w).2.heap (_configReducedHeight config w).1).maxHeight
      = some (h - 1) ∧
    (1 ≤ h ↔ h - 1 = max (h - 1) 0) := by
  refine ⟨?_, ?_⟩
  · rw [configReducedHeight_heap]
    exact reducedHeight_maxHeight _ _ hh
  · constructor
    · intro h1
      exact (max_eq_left (by omega)).symm
    · intro e
      have := le_max_right (h - 1) 0
      omega

/-- Witness for C14, as amended: the copy of `leafConfig`, of height `1`, has
height `0`. -/
theorem configReducedHeight_maxHeight_witness :
    ((_configReducedHeight 0 (sampleWorld Draw.half leafConfig)).2.heap
      (_configReducedHeight 0 (sampleWorld Draw.half leafConfig)).1).maxHeight
      = some (1 - 1) ∧
    ((1 : Int) ≤ 1 ↔ (1 : Int) - 1 = max (1 - 1) 0) :=
  configReducedHeight_maxHeight 0 (sampleWorld Draw.half leafConfig) 1 rfl

/-! ## C16: random strings -/

theorem base36Digit_mem (d : Nat) (h : d < 36) : base36Digit d ∈ base36Alphabet := by
  unfold base36Digit
  have hl : d < base36Alphabet.length := by simpa [base36Alphabet] using h
  rw [List.getD_eq_getElem _ _ hl]
  exact List.getElem_mem _

theorem toString36Core_mem (fuel : Nat) :
    ∀ (n : Nat) (acc : List Char), (∀ c ∈ acc, c ∈ base36Alphabet) →
      ∀ c ∈ toString36Core fuel n acc, c ∈ base36Alphabet := by
  induction fuel with
  | zero =>
    intro n acc hacc c hc
    exact hacc c hc
  | succ fuel ih =>
    intro n acc hacc c hc
    have hacc' : ∀ c ∈ base36Digit (n % 36) :: acc, c ∈ base36Alphabet := by
      intro c hc
      rcases List.mem_cons.1 hc with rfl | hc
      · exact base36Digit_mem _ (Nat.mod_lt _ (by decide))
      · exact hacc c hc
    unfold toString36Core at hc
    split_ifs at hc
    · exact hacc' c hc
    · exact ih _ _ hacc' c hc

theorem toString36Core_length (fuel : Nat) :
    ∀ (n : Nat) (acc : List Char),
      acc.length + 1 ≤ (toString36Core (fuel + 1) n acc).length := by
  induction fuel with
  | zero =>
    intro n acc
    unfold toString36Core
    split_ifs
    · simp
    · simp [toString36Core]
  | succ fuel ih =>
    intro n acc
    unfold toString36Core
    split_ifs
    · simp
    · have := ih (n / 36) (base36Digit (n % 36) :: acc)
      simp only [List.length_cons] at this
      omega

/-- The fuel `n + 1` that `toString36` gives the conversion never runs out: any
fuel above `n` gives the same digits. -/
theorem toString36Core_fuel (fuel₁ : Nat) :
    ∀ (fuel₂ n : Nat) (acc : List Char), n < fuel₁ → n < fuel₂ →
      toString36Core fuel₁ n acc = toString36Core fuel₂ n acc := by
  induction fuel₁ with
  | zero =>
    intro fuel₂ n acc h₁ _
    omega
  | succ fuel₁ ih =>
    intro fuel₂ n acc h₁ h₂
    obtain ⟨g, rfl⟩ : ∃ g, fuel₂ = g + 1 := ⟨fuel₂ - 1, by omega⟩
    unfold toString36Core
    by_cases hq : n / 36 = 0
    · simp [hq]
    · simp only [hq, if_false]
      have hlt : n / 36 < n := Nat.div_lt_self (by omega) (by decide)
      exact ih g (n / 36) _ (by omega) (by omega)

/-- The base-36 numerals of a few numbers, the largest 32-bit word among them. -/
theorem toString36_examples :
    toString36 0 = ['0'] ∧ toString36 35 = ['z'] ∧ toString36 36 = ['1', '0'] ∧
    toString36 4294967295 = ['1', 'z', '1', '4', '1', 'z', '3'] := by
  decide

theorem toString36_length_pos (n : Nat) : 1 ≤ (toString36 n).length := by
  have := toString36Core_length n n []
  simpa [toString36] using this

theorem toString36_mem (n : Nat) : ∀ c ∈ toString36 n, c ∈ base36Alphabet :=
  toString36Core_mem _ _ _ (fun c hc => by simp at hc)

theorem length_flatten_ge (xss : List (List Char)) (h : ∀ xs ∈ xss, 1 ≤ xs.length) :
    xss.length ≤ xss.flatten.length := by
  induction xss with
  | nil => simp
  | cons xs rest ih =>
    have h1 := h xs (List.mem_cons_self _ _)
    have h2 := ih (fun ys hys => h ys (List.mem_cons_of_mem _ hys))
    simp only [List.flatten_cons, List.length_append, List.length_cons]
    omega

/-- C16: for every output of the random source, the string `_getRandomString`
returns has length exactly `10` (each of the ten words gives at least one digit
before the cut) and every character of it is one of `0`-`9`, `a`-`z`. -/
theorem getRandomString_length_and_chars (w : World) :
    (_getRandomString w).1.length = 10 ∧
    (∀ c ∈ (_getRandomString w).1, c ∈ base36Alphabet) ∧
    (∀ n, 1 ≤ (toString36 n).length) := by
  refine ⟨?_, ?_, toString36_length_pos⟩
  · show (List.take 10 (List.flatten (List.map toString36 (getRandomValues 10 w).1))).length = 10
    have hlen := length_flatten_ge (List.map toString36 (getRandomValues 10 w).1) (by
      intro xs hxs
      obtain ⟨n, _, rfl⟩ := List.mem_map.1 hxs
      exact toString36_length_pos n)
    have h10 : (List.map toString36 (getRandomValues 10 w).1).length = 10 := by
      simp [getRandomValues]
    rw [List.length_take]
    omega
  · intro c hc
    have hc' : c ∈ List.flatten (List.map toString36 (getRandomValues 10 w).1) :=
      List.mem_of_mem_take hc
    obtain ⟨xs, hxs, hcx⟩ := List.mem_flatten.1 hc'
    obtain ⟨n, _, rfl⟩ := List.mem_map.1 hxs
    exact toString36_mem n c hcx

/-! ## C17: the subkinds of leaf values -/

/-- C17: `_getComplexValue` always returns a date built from a 32-bit word, the
fixed regular expression or the fixed error, and each of the three is returned
for some draw; `_getSimpleValue` always returns a string, a number `n / d`
with `0 <= n / d < 10`, `undefined` or a boolean, and each of the four is
returned for some draw. -/
theorem leaf_value_subkinds (w : World) :
    ((∃ raw, raw < 2 ^ 32 ∧ (_getComplexValue w).1 = JSValue.date raw) ∨
      (_getComplexValue w).1 = JSValue.regexp ∨ (_getComplexValue w).1 = JSValue.error) ∧
    ((∃ r raw, (_getComplexValue { w with random := fun _ => r }).1 = JSValue.date raw) ∧
      (∃ r, (_getComplexValue { w with random := fun _ => r }).1 = JSValue.regexp) ∧
      (∃ r, (_getComplexValue { w with random := fun _ => r }).1 = JSValue.error)) ∧
    ((∃ s, (_getSimpleValue w).1 = JSValue.str s) ∨
      (∃ n d, (_getSimpleValue w).1 = JSValue.num n d ∧ 0 < d ∧ n < 10 * d) ∨
      (_getSimpleValue w).1 = JSValue.undefined ∨
      (∃ b, (_getSimpleValue w).1 = JSValue.bool b)) ∧
    ((∃ r s, (_getSimpleValue { w with random := fun _ => r }).1 = JSValue.str s) ∧
      (∃ r n d, (_getSimpleValue { w with random := fun _ => r }).1 = JSValue.num n d) ∧
      (∃ r, (_getSimpleValue { w with random := fun _ => r }).1 = JSValue.undefined) ∧
      (∃ r b, (_getSimpleValue { w with random := fun _ => r }).1 = JSValue.bool b)) := by
  refine ⟨?_, ⟨?_, ?_, ?_⟩, ?_, ⟨?_, ?_, ?_, ?_⟩⟩
  · unfold _getComplexValue
    simp only
    split_ifs
    · refine Or.inl ⟨w.crypto 0 % 2 ^ 32, Nat.mod_lt _ (by decide), ?_⟩
      simp [getRandomValues, mathRandom, List.range_succ]
    · exact Or.inr (Or.inl rfl)
    · exact Or.inr (Or.inr rfl)
  · refine ⟨⟨0, 3, by decide⟩, w.crypto 0 % 2 ^ 32, ?_⟩
    simp [_getComplexValue, mathRandom, getRandomValues, Draw.floorMul, List.range_succ]
  · refine ⟨⟨1, 3, by decide⟩, ?_⟩
    simp [_getComplexValue, mathRandom, Draw.floorMul]
  · refine ⟨⟨2, 3, by decide⟩, ?_⟩
    simp [_getComplexValue, mathRandom, Draw.floorMul]
  · unfold _getSimpleValue
    simp only
    split_ifs
    · exact Or.inl ⟨_, rfl⟩
    · refine Or.inr (Or.inl ⟨_, _, rfl, Draw.den_pos _, ?_⟩)
      have := (mathRandom (mathRandom w).2).1.lt
      omega
    · exact Or.inr (Or.inr (Or.inl rfl))
    · exact Or.inr (Or.inr (Or.inr ⟨_, rfl⟩))
    · exact Or.inr (Or.inr (Or.inl rfl))
  · refine ⟨⟨0, 4, by decide⟩, (_getRandomString w).1, ?_⟩
    simp [_getSimpleValue, mathRandom, Draw.floorMul, _getRandomString, getRandomValues]
  · refine ⟨⟨1, 4, by decide⟩, 10, 4, ?_⟩
    simp [_getSimpleValue, mathRandom, Draw.floorMul]
  · refine ⟨⟨2, 4, by decide⟩, ?_⟩
    simp [_getSimpleValue, mathRandom, Draw.floorMul]
  · refine ⟨⟨3, 4, by decide⟩, true, ?_⟩
    simp [_getSimpleValue, mathRandom, Draw.floorMul, _getRandomBool]

/-! ## Termination: draws that never collide -/

theorem getRandomString_eq_keyAt (w : World) : (_getRandomString w).1 = keyAt w.crypto 0 := by
  simp [_getRandomString, getRandomValues, keyAt]

theorem keyAt_shift (crypto : Nat → Nat) (n p : Nat) :
    keyAt (fun i => crypto (i + n)) p = keyAt crypto (p + n) := by
  unfold keyAt
  have e : (fun i => crypto (p + i + n) % 2 ^ 32) = (fun i => crypto (p + n + i) % 2 ^ 32) := by
    funext i
    rw [Nat.add_right_comm]
  simp only [e]

theorem Fresh.mono {N : Nat} {w : World} {used : List JSString} (h : Fresh N w used)
    {M : Nat} (hM : M ≤ N) : Fresh M w used :=
  ⟨fun j hj i hi => h.1 j (lt_of_lt_of_le hj hM) i hi,
   fun i hi => h.2 i (lt_of_lt_of_le hi hM)⟩

theorem Fresh.subset {N : Nat} {w : World} {used : List JSString} (h : Fresh N w used)
    {used₁ : List JSString} (hs : ∀ k ∈ used₁, k ∈ used) : Fresh N w used₁ :=
  ⟨h.1, fun i hi => ⟨fun hk => (h.2 i hi).1 (hs _ hk), (h.2 i hi).2⟩⟩

theorem Fresh.shift {N : Nat} {w : World} {used : List JSString} (h : Fresh N w used)
    {u : World} (n : Nat) (hc : u.crypto = fun i => w.crypto (i + n))
    (hp : u.objectPrototype = w.objectPrototype) : Fresh (N - n) u used := by
  refine ⟨fun j hj i hi => ?_, fun i hi => ?_⟩
  · rw [hc, keyAt_shift, keyAt_shift]
    exact h.1 (j + n) (by omega) (i + n) (by omega)
  · rw [hc, keyAt_shift, hp]
    exact h.2 (i + n) (by omega)

theorem Fresh.sameKeys {N : Nat} {w : World} {used : List JSString} (h : Fresh N w used)
    {u : World} (hk : w.SameKeys u) : Fresh N u used := by
  have := h.shift 0 (u := u) (by rw [hk.1]; rfl) hk.2
  simpa using this

/-- After a key has been drawn and attached (to the node or to the global
store), the next draws still cannot collide, the drawn key included. -/
theorem Fresh.draw {N : Nat} {w : World} {used : List JSString} (h : Fresh N w used)
    {u : World} (hc : u.crypto = fun i => w.crypto (i + 10))
    (hp : ∀ k ∈ u.objectPrototype.keys,
      k ∈ w.objectPrototype.keys ∨ k = keyAt w.crypto 0) :
    Fresh (N - 10) u (keyAt w.crypto 0 :: used) := by
  refine ⟨fun j hj i hi => ?_, fun i hi => ?_⟩
  · rw [hc, keyAt_shift, keyAt_shift]
    exact h.1 (j + 10) (by omega) (i + 10) (by omega)
  · rw [hc, keyAt_shift]
    have hne : keyAt w.crypto 0 ≠ keyAt w.crypto (i + 10) :=
      h.1 (i + 10) (by omega) 0 (by omega)
    obtain ⟨hu, hs⟩ := h.2 (i + 10) (by omega)
    refine ⟨?_, ?_⟩
    · intro hk
      rcases List.mem_cons.1 hk with e | hk
      · exact hne e.symm
      · exact hu hk
    · intro hk
      rcases hp _ hk with hk | e
      · exact hs hk
      · exact hne e.symm

theorem getSimpleValue_fresh {N : Nat} {w : World} {used : List JSString}
    (h : Fresh N w used) : Fresh (N - 10) (_getSimpleValue w).2 used := by
  unfold _getSimpleValue
  simp only
  split_ifs
  · exact h.shift 10 rfl rfl
  · exact (h.sameKeys (u := (mathRandom (mathRandom w).2).2) ⟨rfl, rfl⟩).mono (Nat.sub_le _ _)
  · exact (h.sameKeys (u := (mathRandom w).2) ⟨rfl, rfl⟩).mono (Nat.sub_le _ _)
  · exact (h.sameKeys (u := (_getRandomBool (mathRandom w).2).2) ⟨rfl, rfl⟩).mono
      (Nat.sub_le _ _)
  · exact (h.sameKeys (u := (mathRandom w).2) ⟨rfl, rfl⟩).mono (Nat.sub_le _ _)

theorem getComplexValue_fresh {N : Nat} {w : World} {used : List JSString}
    (h : Fresh N w used) : Fresh (N - 10) (_getComplexValue w).2 used := by
  unfold _getComplexValue
  simp only
  split_ifs
  · exact (h.shift 1 (u := (getRandomValues 1 (mathRandom w).2).2) rfl rfl).mono (by omega)
  · exact (h.sameKeys (u := (mathRandom w).2) ⟨rfl, rfl⟩).mono (Nat.sub_le _ _)
  · exact (h.sameKeys (u := (mathRandom w).2) ⟨rfl, rfl⟩).mono (Nat.sub_le _ _)

/-- The loop of `_getUniqueKey` stops at the first drawn key that is not an
exclusion: when the first key already is none, it is returned without any
resampling, whatever the fuel. -/
theorem getUniqueKey_first (fuel : Nat) (exclusions : List JSString) (w : World)
    (h : keyAt w.crypto 0 ∉ exclusions) :
    _getUniqueKey fuel exclusions w = some (keyAt w.crypto 0, (_getRandomString w).2) := by
  unfold _getUniqueKey
  simp only
  rw [getRandomString_eq_keyAt]
  unfold uniqueKeyLoop
  rw [if_neg h]

/-- When the next draws cannot collide, the attachment of a child succeeds
with any fuel, and the draws after it still cannot collide. -/
theorem attachChild_terminates (fuel config : Nat) (value : JSValue) (obj : JSObject)
    (w : World) (N : Nat) (used : List JSString) (hF : Fresh N w used) (hN : 0 < N)
    (hobj : ∀ k ∈ obj.keys, k ∈ used) :
    ∃ obj' w', attachChild fuel config value obj w = some (obj', w') ∧
      Fresh (N - 10) w' (keyAt w.crypto 0 :: used) ∧
      ∀ k ∈ obj'.keys, k ∈ keyAt w.crypto 0 :: used := by
  unfold attachChild
  have key : ∀ (w₁ : World), w.SameKeys w₁ →
      ∃ obj' w',
        (match _getUniqueKey fuel obj.keys w₁ with
          | none => none
          | some (key, w) => some (obj.set key value, w)) = some (obj', w') ∧
        Fresh (N - 10) w' (keyAt w.crypto 0 :: used) ∧
        ∀ k ∈ obj'.keys, k ∈ keyAt w.crypto 0 :: used := by
    intro w₁ hk
    have hF₁ := hF.sameKeys hk
    have hfirst : keyAt w₁.crypto 0 ∉ obj.keys := fun hm => (hF₁.2 0 hN).1 (hobj _ hm)
    rw [getUniqueKey_first fuel _ w₁ hfirst]
    refine ⟨_, _, rfl, ?_, ?_⟩
    · have := hF₁.draw (u := (_getRandomString w₁).2) rfl (fun k hk => Or.inl hk)
      rw [hk.1] at this
      exact this
    · intro k hk'
      rw [JSObject.set_of_not_mem _ _ _ hfirst, JSObject.keys_append] at hk'
      rcases List.mem_append.1 hk' with hk' | hk'
      · exact List.mem_cons_of_mem _ (hobj _ hk')
      · rw [List.mem_singleton] at hk'
        rw [hk', hk.1]
        exact List.mem_cons_self _ _
  by_cases hp : truthy (w.heap config).onPrototype = true
  · simp only [hp, if_true]
    by_cases hb : (_getRandomBool w).1 = true
    · simp only [hb, if_true]
      have hk : w.SameKeys (_getRandomBool w).2 := ⟨rfl, rfl⟩
      have hF₁ := hF.sameKeys hk
      have hfirst : keyAt (_getRandomBool w).2.crypto 0
          ∉ (_getRandomBool w).2.objectPrototype.keys := (hF₁.2 0 hN).2
      rw [getUniqueKey_first fuel _ _ hfirst]
      refine ⟨_, _, rfl, ?_, fun k hk' => List.mem_cons_of_mem _ (hobj _ hk')⟩
      have := hF₁.draw
        (u := { (_getRandomString (_getRandomBool w).2).2 with
          objectPrototype := (_getRandomString (_getRandomBool w).2).2.objectPrototype.set
            (keyAt (_getRandomBool w).2.crypto 0) value })
        rfl (by
          intro k hk'
          have e : (_getRandomString (_getRandomBool w).2).2.objectPrototype
              = (_getRandomBool w).2.objectPrototype := rfl
          simp only [e] at hk'
          rw [JSObject.set_of_not_mem _ _ _ hfirst, JSObject.keys_append] at hk'
          rcases List.mem_append.1 hk' with hk' | hk'
          · exact Or.inl hk'
          · exact Or.inr (List.mem_singleton.1 hk'))
      exact this
    · simp only [hb, Bool.false_eq_true, if_false]
      exact key _ ⟨rfl, rfl⟩
  · simp only [hp, Bool.false_eq_true, if_false]
    exact key _ ⟨rfl, rfl⟩

/-- The loop of `_getRandomObject` runs to its end when the draws cannot
collide and every call of the value generator returns. -/
theorem objectLoop_terminates (g : Nat → World → Option (JSValue × World)) (fuel config : Nat)
    (Inv : World → Prop) (cv : Nat)
    (hInv : ∀ w w', Inv w → w.Extends w' → Inv w')
    (hg : ∀ w N used, Inv w → Fresh N w used → cv ≤ N →
      ∃ v w', g config w = some (v, w') ∧ Fresh (N - cv) w' used ∧ w.Extends w') :
    ∀ (n : Nat) (obj : JSObject) (w : World) (N : Nat) (used : List JSString), Inv w →
      Fresh N w used → (∀ k ∈ obj.keys, k ∈ used) → n * (cv + 10) ≤ N →
      ∃ obj' w', objectLoop g fuel config n obj w = some (obj', w') ∧
        Fresh (N - n * (cv + 10)) w' used ∧ w.Extends w' := by
  intro n
  induction n with
  | zero =>
    intro obj w N used _ hF _ _
    exact ⟨obj, w, rfl, by simpa using hF, World.Extends.ext_refl _⟩
  | succ n ih =>
    intro obj w N used hI hF hobj hN
    rw [Nat.succ_mul] at hN
    obtain ⟨v, w₁, hv, hF₁, hE₁⟩ := hg w N used hI hF (by omega)
    obtain ⟨obj₂, w₂, ha, hF₂, hobj₂⟩ :=
      attachChild_terminates fuel config v obj w₁ (N - cv) used hF₁ (by omega) hobj
    have hE₂ := attachChild_extends _ _ _ _ _ _ _ ha
    have hE := hE₁.ext_trans hE₂
    obtain ⟨obj', w', hl, hF', hE'⟩ :=
      ih obj₂ w₂ (N - cv - 10) _ (hInv _ _ hI hE) hF₂ hobj₂ (by omega)
    refine ⟨obj', w', ?_, ?_, hE.ext_trans hE'⟩
    · simp only [objectLoop, hv, ha]
      exact hl
    · refine (hF'.subset (fun k hk => List.mem_cons_of_mem _ hk)).mono ?_
      rw [Nat.succ_mul]
      omega

/-- The loop of `_getRandomArray` runs to its end when every call of the value
generator returns. -/
theorem arrayLoop_terminates (g : Nat → World → Option (JSValue × World)) (config : Nat)
    (Inv : World → Prop) (cv : Nat)
    (hInv : ∀ w w', Inv w → w.Extends w' → Inv w')
    (hg : ∀ w N used, Inv w → Fresh N w used → cv ≤ N →
      ∃ v w', g (_configReducedHeight config w).1 (_configReducedHeight config w).2
          = some (v, w') ∧
        Fresh (N - cv) w' used ∧ (_configReducedHeight config w).2.Extends w') :
    ∀ (n : Nat) (arr : List JSValue) (w : World) (N : Nat) (used : List JSString), Inv w →
      Fresh N w used → n * cv ≤ N →
      ∃ arr' w', arrayLoop g config n arr w = some (arr', w') ∧
        Fresh (N - n * cv) w' used ∧ w.Extends w' := by
  intro n
  induction n with
  | zero =>
    intro arr w N used _ hF _
    exact ⟨arr, w, rfl, by simpa using hF, World.Extends.ext_refl _⟩
  | succ n ih =>
    intro arr w N used hI hF hN
    rw [Nat.succ_mul] at hN
    obtain ⟨v, w₁, hv, hF₁, hE₁⟩ := hg w N used hI hF (by omega)
    have hE := (configReducedHeight_extends config w).ext_trans hE₁
    obtain ⟨arr', w', hl, hF', hE'⟩ :=
      ih (arr ++ [v]) w₁ (N - cv) used (hInv _ _ hI hE) hF₁ (by omega)
    refine ⟨arr', w', ?_, ?_, hE.ext_trans hE'⟩
    · simp only [arrayLoop, hv]
      exact hl
    · refine hF'.mono ?_
      rw [Nat.succ_mul]
      omega

theorem getRandomObjectWith_terminates (g : Nat → World → Option (JSValue × World))
    (fuel config : Nat) (c : Config) (cv : Nat)
    (hg : leZero c.maxHeight = false → ∀ w N used, (w.heap config = c ∧ config < w.next) →
      Fresh N w used → cv ≤ N →
      ∃ v w', g config w = some (v, w') ∧ Fresh (N - cv) w' used ∧ w.Extends w')
    (w : World) (N : Nat) (used : List JSString) (hheap : w.heap config = c)
    (hlt : config < w.next) (hF : Fresh N w used)
    (hN : breadthCap c.maxBreadth * (cv + 10) ≤ N) :
    ∃ v w', _getRandomObjectWith g fuel [] config w = some (v, w') ∧
      Fresh (N - breadthCap c.maxBreadth * (cv + 10)) w' used ∧ w.Extends w' := by
  unfold _getRandomObjectWith
  by_cases hz : leZero (w.heap config).maxHeight = true
  · simp only [hz, if_true]
    exact ⟨_, _, rfl, hF.mono (Nat.sub_le _ _), World.Extends.ext_refl _⟩
  · simp only [hz, Bool.false_eq_true, if_false]
    have hz' : leZero c.maxHeight = false := by rw [← hheap]; simpa using hz
    have hE₀ : w.Extends (mathRandom w).2 := (mathRandom_sameStore w).extends
    have hcount := loopCount_le_breadthCap c.maxBreadth (mathRandom w).1
    have e : (mathRandom w).2.heap config = c := hheap
    rw [e]
    have hmul : loopCount (numChildrenOf c.maxBreadth (mathRandom w).1) * (cv + 10)
        ≤ breadthCap c.maxBreadth * (cv + 10) := Nat.mul_le_mul_right _ hcount
    obtain ⟨obj', w', hl, hF', hE'⟩ :=
      objectLoop_terminates g fuel config (fun w₂ => w₂.heap config = c ∧ config < w₂.next) cv
        (fun w₁ w₂ hI hx => ⟨by rw [hx.heap_eq _ hI.2, hI.1], lt_of_lt_of_le hI.2 hx.next_le⟩)
        (hg hz') _ [] (mathRandom w).2 N used ⟨hheap, hlt⟩
        (hF.sameKeys (u := (mathRandom w).2) ⟨rfl, rfl⟩) (fun k hk => by simp [JSObject.keys] at hk)
        (le_trans hmul hN)
    refine ⟨_, w', by rw [hl], hF'.mono (by omega), hE₀.ext_trans hE'⟩

theorem getRandomArrayWith_terminates (g : Nat → World → Option (JSValue × World))
    (config : Nat) (c : Config) (cv : Nat)
    (hg : predLeZero c.maxHeight = false → ∀ w N used,
      (w.heap config = c ∧ config < w.next) → Fresh N w used → cv ≤ N →
      ∃ v w', g (_configReducedHeight config w).1 (_configReducedHeight config w).2
          = some (v, w') ∧
        Fresh (N - cv) w' used ∧ (_configReducedHeight config w).2.Extends w')
    (w : World) (N : Nat) (used : List JSString) (hheap : w.heap config = c)
    (hlt : config < w.next) (hF : Fresh N w used)
    (hN : breadthCap c.maxBreadth * cv ≤ N) :
    ∃ v w', _getRandomArrayWith g config w = some (v, w') ∧
      Fresh (N - breadthCap c.maxBreadth * cv) w' used ∧ w.Extends w' := by
  unfold _getRandomArrayWith
  have hE₀ : w.Extends (mathRandom w).2 := (mathRandom_sameStore w).extends
  have hF₀ : Fresh N (mathRandom w).2 used := hF.sameKeys ⟨rfl, rfl⟩
  have e : (mathRandom w).2.heap config = c := hheap
  simp only [e]
  by_cases hz : predLeZero c.maxHeight = true
  · simp only [hz, if_true]
    exact ⟨_, _, rfl, hF₀.mono (Nat.sub_le _ _), hE₀⟩
  · simp only [hz, Bool.false_eq_true, if_false]
    have hcount := loopCount_le_breadthCap c.maxBreadth (mathRandom w).1
    have hmul : loopCount (numChildrenOf c.maxBreadth (mathRandom w).1) * cv
        ≤ breadthCap c.maxBreadth * cv := Nat.mul_le_mul_right _ hcount
    obtain ⟨arr', w', hl, hF', hE'⟩ :=
      arrayLoop_terminates g config (fun w₂ => w₂.heap config = c ∧ config < w₂.next) cv
        (fun w₁ w₂ hI hx => ⟨by rw [hx.heap_eq _ hI.2, hI.1], lt_of_lt_of_le hI.2 hx.next_le⟩)
        (hg (by simpa using hz)) _ [] (mathRandom w).2 N used ⟨hheap, hlt⟩ hF₀
        (le_trans hmul hN)
    refine ⟨_, w', by rw [hl], hF'.mono (by omega), hE₀.ext_trans hE'⟩

theorem reducedHeight_maxBreadth (c : Config) :
    (reducedHeight c).maxBreadth = c.maxBreadth := rfl

/-- With fuel at least the height, `_getRandomValue` returns whenever the draws
of the random source cannot collide. -/
theorem getRandomValue_terminates : ∀ (fuel config : Nat) (w : World) (k N : Nat)
    (used : List JSString), config < w.next →
    (w.heap config).maxHeight = some ((k + 1 : Nat) : Int) → k + 1 ≤ fuel →
    Fresh N w used → valueCost (breadthCap (w.heap config).maxBreadth) (k + 1) ≤ N →
    ∃ v w', _getRandomValue fuel config w = some (v, w') ∧
      Fresh (N - valueCost (breadthCap (w.heap config).maxBreadth) (k + 1)) w' used := by
  intro fuel
  induction fuel with
  | zero =>
    intro config w k N used _ _ hf
    omega
  | succ fuel ih =>
    intro config w k N used hlt hh hf hF hN
    have hcost : valueCost (breadthCap (w.heap config).maxBreadth) (k + 1)
        = 10 + breadthCap (w.heap config).maxBreadth
          * (valueCost (breadthCap (w.heap config).maxBreadth) k + 10) := rfl
    rw [hcost] at hN ⊢
    have hred : (reducedHeight (w.heap config)).maxHeight = some ((k : Nat) : Int) := by
      rw [reducedHeight_maxHeight _ _ hh]
      push_cast
      congr 1
      omega
    have hz : leZero (w.heap config).maxHeight = false := by
      simp only [leZero, hh, decide_eq_false_iff_not, not_le]
      exact_mod_cast Nat.succ_pos k
    -- the recursive calls, on a configuration of height `k`
    have hrec : ∀ (nc : Nat) (w₁ : World) (N₁ : Nat) (used₁ : List JSString),
        0 < k → nc < w₁.next → w₁.heap nc = reducedHeight (w.heap config) →
        Fresh N₁ w₁ used₁ →
        valueCost (breadthCap (w.heap config).maxBreadth) k ≤ N₁ →
        ∃ v w', _getRandomValue fuel nc w₁ = some (v, w') ∧
          Fresh (N₁ - valueCost (breadthCap (w.heap config).maxBreadth) k) w' used₁ ∧
          w₁.Extends w' := by
      intro nc w₁ N₁ used₁ hk hnc hheap hF₁ hN₁
      obtain ⟨k', rfl⟩ : ∃ k', k = k' + 1 := ⟨k - 1, by omega⟩
      have hb : (w₁.heap nc).maxBreadth = (w.heap config).maxBreadth := by rw [hheap]; rfl
      obtain ⟨v, w', hv, hF'⟩ := ih nc w₁ k' N₁ used₁ hnc (by rw [hheap]; exact hred)
        (by omega) hF₁ (by rw [hb]; exact hN₁)
      rw [hb] at hF'
      exact ⟨v, w', hv, hF', getRandomValue_extends _ _ _ _ _ hv⟩
    unfold _getRandomValue
    have e : (_getRandomType config w).2.heap = w.heap := rfl
    have hF₀ : Fresh N (_getRandomType config w).2 used := hF.sameKeys ⟨rfl, rfl⟩
    simp only [e, hz, Bool.false_eq_true, if_false]
    split
    · exact ⟨_, _, rfl, (getSimpleValue_fresh hF₀).mono (by omega)⟩
    · obtain ⟨v, w', hv, hF', _⟩ := getRandomArrayWith_terminates (_getRandomValue fuel) config
        (w.heap config) (valueCost (breadthCap (w.heap config).maxBreadth) k)
        (by
          intro hp w₁ N₁ used₁ hI hF₁ hN₁
          have hk : 0 < k := by
            simp only [predLeZero, hh, decide_eq_false_iff_not, not_le] at hp
            push_cast at hp
            omega
          exact hrec _ _ N₁ used₁ hk (Nat.lt_succ_self _)
            (by rw [configReducedHeight_heap, hI.1])
            (hF₁.sameKeys (u := (_configReducedHeight config w₁).2) ⟨rfl, rfl⟩) hN₁)
        (_getRandomType config w).2 N used rfl hlt hF₀
        (by
          have := Nat.mul_le_mul_left (breadthCap (w.heap config).maxBreadth)
            (Nat.le_add_right (valueCost (breadthCap (w.heap config).maxBreadth) k) 10)
          omega)
      refine ⟨v, w', hv, hF'.mono ?_⟩
      have := Nat.mul_le_mul_left (breadthCap (w.heap config).maxBreadth)
        (Nat.le_add_right (valueCost (breadthCap (w.heap config).maxBreadth) k) 10)
      omega
    · exact ⟨_, _, rfl, (getComplexValue_fresh hF₀).mono (by omega)⟩
    · exact ⟨_, _, rfl, hF₀.mono (by omega)⟩
    · have hF₁ : Fresh N (_configReducedHeight config (_getRandomType config w).2).2 used :=
        hF₀.sameKeys ⟨rfl, rfl⟩
      obtain ⟨v, w', hv, hF', _⟩ := getRandomObjectWith_terminates (_getRandomValue fuel) fuel
        (_configReducedHeight config (_getRandomType config w).2).1
        (reducedHeight (w.heap config))
        (valueCost (breadthCap (w.heap config).maxBreadth) k)
        (by
          intro hp w₁ N₁ used₁ hI hF₂ hN₂
          have hk : 0 < k := by
            simp only [leZero, hred, decide_eq_false_iff_not, not_le] at hp
            exact_mod_cast hp
          exact hrec _ _ N₁ used₁ hk hI.2 hI.1 hF₂ hN₂)
        (_configReducedHeight config (_getRandomType config w).2).2 N used
        (configReducedHeight_heap _ _) (Nat.lt_succ_self _) hF₁
        (by rw [reducedHeight_maxBreadth]; omega)
      rw [reducedHeight_maxBreadth] at hF'
      exact ⟨v, w', hv, hF'.mono (by omega)⟩

/-! ## C13: arrays -/

/-- In the `object` case `_getRandomValue` hands a height-reduced copy of its
configuration to `_getRandomObject`. -/
theorem getRandomValue_object_case (fuel config : Nat) (w : World) (k : Int)
    (hh : (w.heap config).maxHeight = some k) (hk : 0 < k)
    (ht : (_getRandomType config w).1 = some Kind.object) :
    ((_configReducedHeight config (_getRandomType config w).2).2.heap
        (_configReducedHeight config (_getRandomType config w).2).1).maxHeight = some (k - 1) ∧
    _getRandomValue (fuel + 1) config w
      = _getRandomObject fuel [] (_configReducedHeight config (_getRandomType config w).2).1
          (_configReducedHeight config (_getRandomType config w).2).2 := by
  refine ⟨?_, ?_⟩
  · rw [configReducedHeight_heap]
    exact reducedHeight_maxHeight _ _ hh
  · have hz : leZero (w.heap config).maxHeight = false := by
      simp only [leZero, hh, decide_eq_false_iff_not, not_le]
      exact hk
    have e : (_getRandomType config w).2.heap = w.heap := rfl
    unfold _getRandomValue
    simp only [e, hz, ht, Bool.false_eq_true, if_false]
    rfl

/-- In the `array` case `_getRandomValue` hands its own configuration to
`_getRandomArray`. -/
theorem getRandomValue_array_case (fuel config : Nat) (w : World) (k : Int)
    (hh : (w.heap config).maxHeight = some k) (hk : 0 < k)
    (ht : (_getRandomType config w).1 = some Kind.array) :
    _getRandomValue (fuel + 1) config w
      = _getRandomArray fuel config (_getRandomType config w).2 := by
  have hz : leZero (w.heap config).maxHeight = false := by
    simp only [leZero, hh, decide_eq_false_iff_not, not_le]
    exact hk
  have e : (_getRandomType config w).2.heap = w.heap := rfl
  unfold _getRandomValue
  simp only [e, hz, ht, Bool.false_eq_true, if_false]
  rfl

/-- What `_getRandomArray` returns when `maxHeight - 1 > 0`: as many elements
as the drawn count, each produced by `_getRandomValue` from a height-reduced
copy of the configuration. -/
theorem getRandomArray_elems (fuel config : Nat) (w : World) (v : JSValue) (w' : World)
    (hconfig : config < w.next) (hp : predLeZero (w.heap config).maxHeight = false)
    (hres : _getRandomArray fuel config w = some (v, w')) :
    ∃ elems, v = JSValue.array elems ∧
      elems.length = loopCount (numChildrenOf (w.heap config).maxBreadth (w.random 0)) ∧
      ∀ x ∈ elems, ∃ nc w₁ w₂, w₁.heap nc = reducedHeight (w.heap config) ∧
        _getRandomValue fuel nc w₁ = some (x, w₂) := by
  unfold _getRandomArray _getRandomArrayWith at hres
  have e : (mathRandom w).2.heap = w.heap := rfl
  simp only [e, hp, Bool.false_eq_true, if_false] at hres
  cases hl : arrayLoop (_getRandomValue fuel) config
      (loopCount (numChildrenOf (w.heap config).maxBreadth (mathRandom w).1))
      [] (mathRandom w).2 with
  | none => simp [hl] at hres
  | some r =>
    obtain ⟨elems, w₁⟩ := r
    simp only [hl, Option.some.injEq, Prod.mk.injEq] at hres
    obtain ⟨rfl, rfl⟩ := hres
    obtain ⟨_, hlen, hall⟩ := arrayLoop_spec (_getRandomValue fuel) config
      (fun w₂ => w₂.heap config = w.heap config ∧ config < w₂.next)
      (fun x => ∃ nc w₁ w₂, w₁.heap nc = reducedHeight (w.heap config) ∧
        _getRandomValue fuel nc w₁ = some (x, w₂))
      (fun w₁ w₂ hI hx => ⟨by rw [hx.heap_eq _ hI.2, hI.1], lt_of_lt_of_le hI.2 hx.next_le⟩)
      (fun w₁ v₁ w₂ hI hv =>
        ⟨⟨_, _, _, by rw [configReducedHeight_heap, hI.1], hv⟩,
          getRandomValue_extends _ _ _ _ _ hv⟩)
      _ [] (mathRandom w).2 elems w₁ ⟨rfl, hconfig⟩ hl
    refine ⟨elems, rfl, by simpa using hlen, ?_⟩
    intro x hx
    rcases hall x hx with h₁ | h₁
    · simp at h₁
    · exact h₁

/-- With fuel at least `maxHeight - 1`, `_getRandomArray` returns whenever the
draws of the random source cannot collide. -/
theorem getRandomArray_terminates (fuel config : Nat) (w : World) (h : Int) (N : Nat)
    (used : List JSString) (hconfig : config < w.next)
    (hh : (w.heap config).maxHeight = some h) (hfuel : h.toNat - 1 ≤ fuel)
    (hF : Fresh N w used)
    (hN : breadthCap (w.heap config).maxBreadth
      * valueCost (breadthCap (w.heap config).maxBreadth) (h.toNat - 1) ≤ N) :
    ∃ v w', _getRandomArray fuel config w = some (v, w') := by
  obtain ⟨v, w', hv, _⟩ := getRandomArrayWith_terminates (_getRandomValue fuel) config
    (w.heap config) (valueCost (breadthCap (w.heap config).maxBreadth) (h.toNat - 1))
    (by
      intro hp w₁ N₁ used₁ hI hF₁ hN₁
      simp only [predLeZero, hh, decide_eq_false_iff_not, not_le] at hp
      obtain ⟨k, hk⟩ : ∃ k : Nat, h.toNat - 1 = k + 1 := ⟨h.toNat - 2, by omega⟩
      have hheap : (_configReducedHeight config w₁).2.heap (_configReducedHeight config w₁).1
          = reducedHeight (w.heap config) := by rw [configReducedHeight_heap, hI.1]
      have hb : ((_configReducedHeight config w₁).2.heap
          (_configReducedHeight config w₁).1).maxBreadth = (w.heap config).maxBreadth := by
        rw [hheap]; rfl
      obtain ⟨v, w', hv, hF'⟩ := getRandomValue_terminates fuel
        (_configReducedHeight config w₁).1 (_configReducedHeight config w₁).2 k N₁ used₁
        (Nat.lt_succ_self _)
        (by
          rw [hheap, reducedHeight_maxHeight _ _ hh]
          congr 1
          push_cast
          omega)
        (by omega) (hF₁.sameKeys ⟨rfl, rfl⟩) (by rw [hb, ← hk]; exact hN₁)
      rw [hb, ← hk] at hF'
      exact ⟨v, w', hv, hF', getRandomValue_extends _ _ _ _ _ hv⟩)
    w N used rfl hconfig hF hN
  exact ⟨v, w', hv⟩

/-- C13: for a configuration (an existing object) whose `maxHeight` and
`maxBreadth` are integers `h >= 0` and `b >= 0`: when `h - 1 <= 0`,
`_getRandomArray` returns the empty array, with any fuel; otherwise an array it
returns has exactly `floor(r * (b + 1))` elements, `r` being the next draw, and
each element is a result of `_getRandomValue` on a configuration of height
`h - 1`, and it does return when the fuel is at least `h - 1` and the key draws
cannot collide.  A mapping that `_getRandomValue` produces from a configuration
of height `k > 0` is built by `_getRandomObject` with height `k - 1`: so with
`h - 2` as an array element, and with `h - 1` when attached directly. -/
theorem getRandomArray_spec (fuel config : Nat) (w : World) (h b : Int)
    (hconfig : config < w.next) (hh : (w.heap config).maxHeight = some h)
    (hb : (w.heap config).maxBreadth = some b) (_h0 : 0 ≤ h) (hb0 : 0 ≤ b) :
    (h - 1 ≤ 0 → _getRandomArray fuel config w = some (JSValue.array [], (mathRandom w).2)) ∧
    (0 < h - 1 → ∀ v w', _getRandomArray fuel config w = some (v, w') →
      ∃ elems, v = JSValue.array elems ∧
        (elems.length : Int) = (w.random 0).floorMul (b + 1) ∧
        ∀ x ∈ elems, ∃ nc w₁ w₂, (w₁.heap nc).maxHeight = some (h - 1) ∧
          _getRandomValue fuel nc w₁ = some (x, w₂)) ∧
    (0 < h - 1 → h.toNat - 1 ≤ fuel →
      Fresh (b.toNat * valueCost b.toNat (h.toNat - 1)) w [] →
      ∃ v w', _getRandomArray fuel config w = some (v, w')) ∧
    (∀ (fuel₁ nc : Nat) (w₁ : World) (k : Int), (w₁.heap nc).maxHeight = some k → 0 < k →
      (_getRandomType nc w₁).1 = some Kind.object →
      ∃ nc₂ w₂, (w₂.heap nc₂).maxHeight = some (k - 1) ∧
        _getRandomValue (fuel₁ + 1) nc w₁ = _getRandomObject fuel₁ [] nc₂ w₂) := by
  refine ⟨?_, ?_, ?_, ?_⟩
  · intro hle
    have hp : predLeZero (w.heap config).maxHeight = true := by
      simp [predLeZero, hh, hle]
    have e : (mathRandom w).2.heap = w.heap := rfl
    simp [_getRandomArray, _getRandomArrayWith, e, hp]
  · intro hlt v w' hres
    have hp : predLeZero (w.heap config).maxHeight = false := by
      simp only [predLeZero, hh, decide_eq_false_iff_not, not_le]
      exact hlt
    obtain ⟨elems, rfl, hlen, hall⟩ := getRandomArray_elems fuel config w v w' hconfig hp hres
    refine ⟨elems, rfl, ?_, ?_⟩
    · rw [hlen, hb]
      simp only [numChildrenOf, Option.map_some', loopCount]
      exact Int.toNat_of_nonneg ((w.random 0).floorMul_nonneg (by omega))
    · intro x hx
      obtain ⟨nc, w₁, w₂, hheap, hv⟩ := hall x hx
      exact ⟨nc, w₁, w₂, by rw [hheap]; exact reducedHeight_maxHeight _ _ hh, hv⟩
  · intro _ hfuel hF
    refine getRandomArray_terminates fuel config w h _ [] hconfig hh hfuel hF ?_
    rw [hb]
    exact le_refl _
  · intro fuel₁ nc w₁ k hk hpos ht
    exact ⟨_, _, getRandomValue_object_case fuel₁ nc w₁ k hk hpos ht⟩

/-- Witness for C13: the run of `_getRandomArray` on `arrayConfig`, of height
`2`, returns one element, `null`: a mapping built with height `0`. -/
theorem getRandomArray_spec_witness :
    _getRandomArray 1 0 (sampleWorld Draw.half arrayConfig)
      = some (JSValue.array [JSValue.null], arrayWorldAfter) ∧
    (∃ elems, JSValue.array [JSValue.null] = JSValue.array elems ∧
      (elems.length : Int) = ((sampleWorld Draw.half arrayConfig).random 0).floorMul (1 + 1) ∧
      ∀ x ∈ elems, ∃ nc w₁ w₂, (w₁.heap nc).maxHeight = some (2 - 1) ∧
        _getRandomValue 1 nc w₁ = some (x, w₂)) ∧
    (∃ v w', _getRandomArray 1 0 (sampleWorld Draw.half arrayConfig) = some (v, w')) :=
  ⟨rfl,
   (getRandomArray_spec 1 0 (sampleWorld Draw.half arrayConfig) 2 1 (by decide) rfl rfl
      (by decide) (by decide)).2.1 (by decide) _ _ rfl,
   (getRandomArray_spec 1 0 (sampleWorld Draw.half arrayConfig) 2 1 (by decide) rfl rfl
      (by decide) (by decide)).2.2.1 (by decide) (by decide) (by decide)⟩

/-! ## C15: entries added per call -/

/-- A call of `_getRandomObject` that draws one child returns the mapping its
one iteration builds. -/
theorem getRandomObject_one_child (fuel config : Nat) (w : World) (value : JSValue)
    (w₁ : World) (obj : JSObject) (w₂ : World)
    (hz : leZero (w.heap config).maxHeight = false)
    (hcount : loopCount (numChildrenOf (w.heap config).maxBreadth (w.random 0)) = 1)
    (hv : _getRandomValue fuel config (mathRandom w).2 = some (value, w₁))
    (ha : attachChild fuel config value [] w₁ = some (obj, w₂)) :
    _getRandomObject fuel [] config w = some (JSValue.object obj, w₂) := by
  unfold _getRandomObject _getRandomObjectWith
  have e : (mathRandom w).2.heap = w.heap := rfl
  have e₁ : (mathRandom w).1 = w.random 0 := rfl
  simp only [hz, Bool.false_eq_true, if_false, e, e₁, hcount, objectLoop, hv, ha]

/-- C15, on a failing input: `getRandomObjectWrapper` is called on
`{maxWidth: 1, maxBreadth: 1, maxHeight: 2, onPrototype: true}` with every draw
`1/2` and an empty `Object.prototype`.  The resolved `maxBreadth` is `1` and
the root draws `n = 1` child, so its loop makes one iteration.  The root
returned has no own entry, yet the store gained two entries during that one
iteration: the nested mapping, while the child was being produced, wrote its
own child to the same global `Object.prototype`, and then the root wrote the
child itself.  The sum of the entries added to the node and to the store is
`2`, above both `n` and `maxBreadth`. -/
theorem generate_store_exceeds_child_count :
    (resolveConfig nestedProtoCallerConfig).maxBreadth = some 1 ∧
    (sampleWorld Draw.half nestedProtoCallerConfig).objectPrototype = [] ∧
    getRandomObjectWrapper 2 (some 0) (sampleWorld Draw.half nestedProtoCallerConfig)
      = some (JSValue.object [], nestedProtoWorldAfter) ∧
    loopCount (numChildrenOf (nestedProtoWorldStart.heap 1).maxBreadth
      (nestedProtoWorldStart.random 0)) = 1 ∧
    (JSValue.object []).childCount = some 0 ∧
    nestedProtoWorldAfter.objectPrototype
      = [(sampleKey, JSValue.null), (sampleKey₂, JSValue.object [])] ∧
    ¬ (0 + nestedProtoWorldAfter.objectPrototype.length = 1) ∧
    ¬ (0 + nestedProtoWorldAfter.objectPrototype.length ≤ 1) :=
  ⟨rfl, rfl,
    (show getRandomObjectWrapper 2 (some 0) (sampleWorld Draw.half nestedProtoCallerConfig)
        = _getRandomObject 2 [] 1 nestedProtoWorldStart from rfl).trans
      (getRandomObject_one_child 2 1 nestedProtoWorldStart (JSValue.object [])
        nestedProtoWorldChild [] nestedProtoWorldAfter rfl (by decide)
        (((getRandomValue_object_case 1 1 (mathRandom nestedProtoWorldStart).2
            2 rfl (by decide) rfl).2).trans
          (show _getRandomObject 1 [] 2 nestedProtoWorldInner
            = some (JSValue.object [], nestedProtoWorldChild) from rfl))
        rfl),
    by decide, rfl, rfl, by decide, by decide⟩

/-- The entries the loop of `_getRandomObject` attaches: each of the `n`
iterations appends one entry, to the node or to the global store; the entries
of the node are kept in front of the new ones, and the entries the loop puts
into the store are among those the store gains. -/
theorem objectLoop_count (g : Nat → World → Option (JSValue × World)) (fuel config : Nat)
    (c : Config)
    (hg : ∀ w v w', g config w = some (v, w') → w.Extends w') :
    ∀ (n : Nat) (obj : JSObject) (w : World) (obj' : JSObject) (w' : World),
      w.heap config = c → config < w.next →
      objectLoop g fuel config n obj w = some (obj', w') →
      ∃ ownAdded storeAdded allAdded : JSObject,
        obj' = obj ++ ownAdded ∧ w'.objectPrototype = w.objectPrototype ++ allAdded ∧
        storeAdded.Sublist allAdded ∧ ownAdded.length + storeAdded.length = n ∧
        (truthy c.onPrototype = false → storeAdded = []) := by
  intro n
  induction n with
  | zero =>
    intro obj w obj' w' _ _ h
    simp only [objectLoop, Option.some.injEq, Prod.mk.injEq] at h
    obtain ⟨rfl, rfl⟩ := h
    exact ⟨[], [], [], by simp, by simp, List.Sublist.refl _, rfl, fun _ => rfl⟩
  | succ n ih =>
    intro obj w obj' w' hheap hlt h
    unfold objectLoop at h
    cases hv : g config w with
    | none => simp [hv] at h
    | some r =>
      obtain ⟨value, w₁⟩ := r
      simp only [hv] at h
      have hE₁ := hg _ _ _ hv
      cases ha : attachChild fuel config value obj w₁ with
      | none => simp [ha] at h
      | some r₂ =>
        obtain ⟨obj₂, w₂⟩ := r₂
        simp only [ha] at h
        have hE₂ := attachChild_extends _ _ _ _ _ _ _ ha
        have hE := hE₁.ext_trans hE₂
        have hheap₁ : w₁.heap config = c := by rw [hE₁.heap_eq _ hlt, hheap]
        obtain ⟨oA, sA, aA, ho, hs, hsub, hcnt, hoff⟩ := ih obj₂ w₂ obj' w'
          (by rw [hE.heap_eq _ hlt, hheap]) (lt_of_lt_of_le hlt hE.next_le) h
        obtain ⟨a₁, e₁, _, _⟩ := hE₁.store
        obtain ⟨_, _, hcase⟩ := attachChild_spec _ _ _ _ _ _ _ ha
        rcases hcase with ⟨hon, eobj, key, _, estore⟩ | ⟨estore, key, _, eobj⟩
        · refine ⟨oA, (key, value) :: sA, a₁ ++ (key, value) :: aA, ?_, ?_, ?_, ?_, ?_⟩
          · rw [ho, eobj]
          · rw [hs, estore, e₁]
            simp
          · exact (List.Sublist.cons₂ _ hsub).trans (List.sublist_append_right _ _)
          · simp only [List.length_cons]
            omega
          · intro hf
            rw [hheap₁, hf] at hon
            cases hon
        · refine ⟨(key, value) :: oA, sA, a₁ ++ aA, ?_, ?_, ?_, ?_, hoff⟩
          · rw [ho, eobj]
            simp
          · rw [hs, estore, e₁]
            simp
          · exact hsub.trans (List.sublist_append_right _ _)
          · simp only [List.length_cons]
            omega

/-- The assignments of one call of `_getRandomObject` with `maxHeight > 0` and
drawn child count `n`: the node has own entries `own` in the result, some
`storeAdded` among the entries the global store gains come from the loop, and
`own.length + storeAdded.length = n <= maxBreadth`; nothing is overwritten (the
store keeps its entries in front of the new ones and the own keys are pairwise
distinct); and with `onPrototype` falsy the node has exactly `n` own entries.
The store may gain more than `storeAdded`: nested mappings write to it too. -/
theorem getRandomObject_entry_count (fuel config : Nat) (w : World) (b : Int) (v : JSValue)
    (w' : World) (hconfig : config < w.next)
    (hz : leZero (w.heap config).maxHeight = false)
    (hb : (w.heap config).maxBreadth = some b) (hb0 : 0 ≤ b)
    (hres : _getRandomObject fuel [] config w = some (v, w')) :
    ∃ own storeAdded allAdded : JSObject,
      v = JSValue.object own ∧ w'.objectPrototype = w.objectPrototype ++ allAdded ∧
      storeAdded.Sublist allAdded ∧
      ((own.length + storeAdded.length : Nat) : Int) = (w.random 0).floorMul (b + 1) ∧
      ((own.length + storeAdded.length : Nat) : Int) ≤ b ∧
      own.keys.Nodup ∧
      (truthy (w.heap config).onPrototype = false →
        storeAdded = [] ∧ (own.length : Int) = (w.random 0).floorMul (b + 1)) := by
  have hnd := getRandomObject_closed
    (GenClosed.nodewise (fun _ v => ∀ own : JSObject, v = JSValue.object own → own.keys.Nodup)
      (fun c v hv => hv)
      (fun c v hv own e => by rw [e] at hv; simp [JSValue.isSimple] at hv)
      (fun c v _ hv own e => by rw [e] at hv; simp [JSValue.isComplex] at hv)
      (fun c _ own e => by cases e)
      (fun c elems _ _ own e => by cases e)
      (fun c own e => by cases e)
      (fun c own _ hnd own₁ e => by
        simp only [JSValue.object.injEq] at e
        rw [← e]
        exact hnd))
    fuel config w v w' hconfig hres
  unfold _getRandomObject _getRandomObjectWith at hres
  have e : (mathRandom w).2.heap = w.heap := rfl
  simp only [hz, Bool.false_eq_true, if_false, e] at hres
  cases hl : objectLoop (_getRandomValue fuel) fuel config
      (loopCount (numChildrenOf (w.heap config).maxBreadth (mathRandom w).1))
      [] (mathRandom w).2 with
  | none => simp [hl] at hres
  | some r =>
    obtain ⟨own, w₁⟩ := r
    simp only [hl, Option.some.injEq, Prod.mk.injEq] at hres
    obtain ⟨rfl, rfl⟩ := hres
    obtain ⟨oA, sA, aA, ho, hs, hsub, hcnt, hoff⟩ :=
      objectLoop_count (_getRandomValue fuel) fuel config (w.heap config)
        (getRandomValue_extends fuel config) _ [] (mathRandom w).2 own w₁ rfl hconfig hl
    simp only [List.nil_append] at ho
    subst ho
    have hn : ((loopCount (numChildrenOf (w.heap config).maxBreadth (mathRandom w).1) : Nat)
        : Int) = (w.random 0).floorMul (b + 1) := by
      rw [hb]
      simp only [numChildrenOf, Option.map_some', loopCount]
      exact Int.toNat_of_nonneg ((w.random 0).floorMul_nonneg (by omega))
    have hlt := (w.random 0).floorMul_lt (show 0 < b + 1 by omega)
    refine ⟨own, sA, aA, rfl, hs, hsub, ?_, ?_, ?_, ?_⟩
    · rw [hcnt]; exact hn
    · rw [hcnt, hn]; omega
    · exact hnd (0, JSValue.object own) (by simp [JSValue.nodes]) own rfl
    · intro hf
      have hsA := hoff hf
      refine ⟨hsA, ?_⟩
      rw [hsA] at hcnt
      simp only [List.length_nil, Nat.add_zero] at hcnt
      rw [hcnt]
      exact hn

/-- The run on `leafConfig` draws one child and the node gets one own entry. -/
theorem getRandomObject_entry_count_witness :
    _getRandomObject 1 [] 0 (sampleWorld Draw.half leafConfig) = some (leafTree, leafWorldAfter) ∧
    ∃ own storeAdded allAdded : JSObject,
      leafTree = JSValue.object own ∧
      leafWorldAfter.objectPrototype
        = (sampleWorld Draw.half leafConfig).objectPrototype ++ allAdded ∧
      storeAdded.Sublist allAdded ∧
      ((own.length + storeAdded.length : Nat) : Int)
        = ((sampleWorld Draw.half leafConfig).random 0).floorMul (1 + 1) ∧
      ((own.length + storeAdded.length : Nat) : Int) ≤ 1 ∧
      own.keys.Nodup ∧
      (truthy ((sampleWorld Draw.half leafConfig).heap 0).onPrototype = false →
        storeAdded = [] ∧
        (own.length : Int) = ((sampleWorld Draw.half leafConfig).random 0).floorMul (1 + 1)) :=
  ⟨rfl, getRandomObject_entry_count 1 0 (sampleWorld Draw.half leafConfig) 1 leafTree
    leafWorldAfter (by decide) rfl rfl (by decide) rfl⟩

/-! ## C18: termination -/

/-- With fuel at least the height, `_getRandomObject` returns whenever the draws
of the random source cannot collide. -/
theorem getRandomObject_terminates (fuel config : Nat) (w : World) (h : Int) (N : Nat)
    (used : List JSString) (hconfig : config < w.next)
    (hh : (w.heap config).maxHeight = some h) (hfuel : h.toNat ≤ fuel)
    (hF : Fresh N w used)
    (hN : objectCost (breadthCap (w.heap config).maxBreadth) h.toNat ≤ N) :
    ∃ v w', _getRandomObject fuel [] config w = some (v, w') := by
  obtain ⟨v, w', hv, _⟩ := getRandomObjectWith_terminates (_getRandomValue fuel) fuel config
    (w.heap config) (valueCost (breadthCap (w.heap config).maxBreadth) h.toNat)
    (by
      intro hp w₁ N₁ used₁ hI hF₁ hN₁
      simp only [leZero, hh, decide_eq_false_iff_not, not_le] at hp
      obtain ⟨k, hk⟩ : ∃ k : Nat, h.toNat = k + 1 := ⟨h.toNat - 1, by omega⟩
      have hb : (w₁.heap config).maxBreadth = (w.heap config).maxBreadth := by rw [hI.1]
      obtain ⟨v, w', hv, hF'⟩ := getRandomValue_terminates fuel config w₁ k N₁ used₁ hI.2
        (by
          rw [hI.1, hh]
          congr 1
          push_cast
          omega)
        (by omega) hF₁ (by rw [hb, ← hk]; exact hN₁)
      rw [hb, ← hk] at hF'
      exact ⟨v, w', hv, hF', getRandomValue_extends _ _ _ _ _ hv⟩)
    w N used rfl hconfig hF hN
  exact ⟨v, w', hv⟩

/-- C18: for a configuration (an existing object) whose `maxHeight` and
`maxBreadth` are integers `h >= 0` and `b >= 0`, and for every random source,
`_getRandomObject` returns as soon as the fuel is at least `h`, provided no
key has to be resampled (the draws cannot collide within the words the run can
consume).  The recursion is well-founded: at `maxHeight <= 0` `_getRandomObject`
and `_getRandomValue` return at once, and `_getRandomArray` does at
`maxHeight - 1 <= 0`; from a configuration of height `k > 0`,
`_getRandomValue` enters `_getRandomObject` with a copy of height `k - 1` and
`_getRandomArray` produces its elements from copies of height `k - 1`, so every
call back into `_getRandomValue` is made with a strictly smaller `maxHeight`;
and `_getUniqueKey` returns the first drawn key when it is not an exclusion,
and never a key that is one. -/
theorem generation_terminates (fuel config : Nat) (w : World) (h b : Int)
    (hconfig : config < w.next) (hh : (w.heap config).maxHeight = some h)
    (hb : (w.heap config).maxBreadth = some b) (_h0 : 0 ≤ h) (_hb0 : 0 ≤ b)
    (hfuel : h.toNat ≤ fuel) (hfresh : Fresh (objectCost b.toNat h.toNat) w []) :
    (∃ v w', _getRandomObject fuel [] config w = some (v, w')) ∧
    (∀ (fuel₁ : Nat) (obj : JSObject) (config₁ : Nat) (w₁ : World),
      leZero (w₁.heap config₁).maxHeight = true →
      _getRandomObject fuel₁ obj config₁ w₁ = some (JSValue.null, w₁) ∧
      _getRandomValue (fuel₁ + 1) config₁ w₁
        = some (JSValue.undefined, (_getRandomType config₁ w₁).2)) ∧
    (∀ (fuel₁ config₁ : Nat) (w₁ : World), predLeZero (w₁.heap config₁).maxHeight = true →
      _getRandomArray fuel₁ config₁ w₁ = some (JSValue.array [], (mathRandom w₁).2)) ∧
    (∀ (fuel₁ config₁ : Nat) (w₁ : World) (k : Int),
      (w₁.heap config₁).maxHeight = some k → 0 < k →
      ((_getRandomType config₁ w₁).1 = some Kind.object →
        ∃ nc w₂, (w₂.heap nc).maxHeight = some (k - 1) ∧ k - 1 < k ∧
          _getRandomValue (fuel₁ + 1) config₁ w₁ = _getRandomObject fuel₁ [] nc w₂) ∧
      ((_getRandomType config₁ w₁).1 = some Kind.array →
        _getRandomValue (fuel₁ + 1) config₁ w₁
          = _getRandomArray fuel₁ config₁ (_getRandomType config₁ w₁).2 ∧
        ∀ v w', config₁ < w₁.next →
          _getRandomArray fuel₁ config₁ (_getRandomType config₁ w₁).2 = some (v, w') →
          ∃ elems, v = JSValue.array elems ∧
            ∀ x ∈ elems, ∃ nc w₂ w₃, (w₂.heap nc).maxHeight = some (k - 1) ∧ k - 1 < k ∧
              _getRandomValue fuel₁ nc w₂ = some (x, w₃))) ∧
    (∀ (fuel₁ : Nat) (exclusions : List JSString) (w₁ : World),
      (keyAt w₁.crypto 0 ∉ exclusions →
        _getUniqueKey fuel₁ exclusions w₁
          = some (keyAt w₁.crypto 0, (_getRandomString w₁).2)) ∧
      ∀ key w₂, _getUniqueKey fuel₁ exclusions w₁ = some (key, w₂) → key ∉ exclusions) := by
  refine ⟨?_, ?_, ?_, ?_, ?_⟩
  · refine getRandomObject_terminates fuel config w h _ [] hconfig hh hfuel hfresh ?_
    rw [hb]
    exact le_refl _
  · intro fuel₁ obj config₁ w₁ hz
    have e : (_getRandomType config₁ w₁).2.heap = w₁.heap := rfl
    exact ⟨by simp [_getRandomObject, _getRandomObjectWith, hz],
      by simp [_getRandomValue, e, hz]⟩
  · intro fuel₁ config₁ w₁ hp
    have e : (mathRandom w₁).2.heap = w₁.heap := rfl
    simp [_getRandomArray, _getRandomArrayWith, e, hp]
  · intro fuel₁ config₁ w₁ k hk hpos
    refine ⟨?_, ?_⟩
    · intro ht
      obtain ⟨h₁, h₂⟩ := getRandomValue_object_case fuel₁ config₁ w₁ k hk hpos ht
      exact ⟨_, _, h₁, by omega, h₂⟩
    · intro ht
      refine ⟨getRandomValue_array_case fuel₁ config₁ w₁ k hk hpos ht, ?_⟩
      intro v w' hlt hres
      by_cases hp : predLeZero (w₁.heap config₁).maxHeight = true
      · have e : (mathRandom (_getRandomType config₁ w₁).2).2.heap = w₁.heap := rfl
        simp only [_getRandomArray, _getRandomArrayWith, e, hp, if_true, Option.some.injEq,
          Prod.mk.injEq] at hres
        exact ⟨[], hres.1.symm, fun x hx => by simp at hx⟩
      · obtain ⟨elems, rfl, _, hall⟩ := getRandomArray_elems fuel₁ config₁
          (_getRandomType config₁ w₁).2 v w' hlt (by simpa using hp) hres
        refine ⟨elems, rfl, ?_⟩
        intro x hx
        obtain ⟨nc, w₂, w₃, hheap, hv⟩ := hall x hx
        have e : (_getRandomType config₁ w₁).2.heap = w₁.heap := rfl
        rw [e] at hheap
        exact ⟨nc, w₂, w₃, by rw [hheap]; exact reducedHeight_maxHeight _ _ hk, by omega, hv⟩
  · intro fuel₁ exclusions w₁
    exact ⟨getUniqueKey_first fuel₁ exclusions w₁,
      fun key w₂ hk => (getUniqueKey_spec _ _ _ _ _ hk).1⟩

/-- Witness for C18: on `leafConfig`, of height `1`, fuel `1` is enough, and the
first thirty words of the sample source give keys that cannot collide. -/
theorem generation_terminates_witness :
    Fresh (objectCost (1 : Int).toNat (1 : Int).toNat) (sampleWorld Draw.half leafConfig) [] ∧
    ∃ v w', _getRandomObject 1 [] 0 (sampleWorld Draw.half leafConfig) = some (v, w') :=
  ⟨by decide,
   (generation_terminates 1 0 (sampleWorld Draw.half leafConfig) 1 1 (by decide) rfl rfl
      (by decide) (by decide) (by decide) (by decide)).1⟩

/-- Witness for C16: the first key of the sample source. -/
theorem getRandomString_length_and_chars_witness :
    (_getRandomString (sampleWorld Draw.half leafConfig)).1.length = 10 ∧
    (∀ c ∈ (_getRandomString (sampleWorld Draw.half leafConfig)).1, c ∈ base36Alphabet) ∧
    (∀ n, 1 ≤ (toString36 n).length) :=
  getRandomString_length_and_chars (sampleWorld Draw.half leafConfig)

end ObjectGenerator
